import Mathlib

/-!
Verification of the MCP SSE server (`src/server/mcpSseServer.ts`) and the SSH
tunnel supervisor (`src/server/tunnelManager.ts`) of the vscode-ssh-bridge-mcp
extension, as a shallow embedding in Lean.

The protocol engine is modelled as pure functions over an explicit server
state (the set of open SSE sessions, the bound port); fallible JavaScript code
(JSON.parse, throwing capability calls) is modelled with `Option`/`Except`.
The tunnel supervisor is modelled as a transition system over an explicit
world (a heap of tunnel-state objects, the key map, the pending timers and
asynchronous subprocess events), since its interesting claims are temporal.
-/

namespace Bridge

/-! ## JSON-RPC data model (mcpSseServer.ts, interfaces McpRequest/McpResponse) -/

/-- JSON-RPC id: number or string in requests; the parse-error response uses
`id: null`. -/
inductive RpcId
  | num (n : Int)
  | str (s : String)
  | null
deriving DecidableEq

/-- `error: \x7b code, message \x7d` member of `McpResponse`. -/
structure RpcError where
  code : Int
  message : String
deriving DecidableEq

/-! Tool registry (`const TOOLS`).  The `inputSchema` objects are carried
verbatim so that `tools/list` returns the full catalogue. -/

/-- One property of an input schema (`type`, optional `enum`, optional
`default`, optional `description`). -/
structure PropSchema where
  type : String
  descr : Option String := none
  enum : Option (List String) := none
  dflt : Option String := none
deriving DecidableEq

/-- `inputSchema` of a tool: an object schema with named properties and an
optional required-list. -/
structure InputSchema where
  type : String := "object"
  properties : List (String × PropSchema)
  required : List String := []
deriving DecidableEq

/-- One entry of `TOOLS`. -/
structure ToolDef where
  name : String
  description : String
  inputSchema : InputSchema
deriving DecidableEq

/-- The tool registry `TOOLS` of mcpSseServer.ts. -/
def TOOLS : List ToolDef :=
  [ { name := "play_notification"
    , description := "Play a notification sound on the local machine. Use this to alert the user."
    , inputSchema :=
      { properties :=
          [ ("type", { type := "string"
                     , enum := some ["default", "success", "error", "warning"]
                     , descr := some "Type of notification sound"
                     , dflt := some "default" })
          , ("message", { type := "string"
                        , descr := some "Optional message to show in VS Code notification" }) ] } }
  , { name := "show_message"
    , description := "Show a message notification in VS Code"
    , inputSchema :=
      { properties :=
          [ ("message", { type := "string", descr := some "Message to display" })
          , ("type", { type := "string"
                     , enum := some ["info", "warning", "error"]
                     , descr := some "Message type"
                     , dflt := some "info" }) ]
      , required := ["message"] } }
  , { name := "play_attention"
    , description := "Play attention-grabbing sound (multiple beeps) to get user attention"
    , inputSchema := { properties := [] } } ]

/-- Result payloads of successful responses produced by `processMessage`. -/
inductive RpcResult
  | initResult (protocolVersion serverName serverVersion : String)
  | emptyObj
  | toolsList (tools : List ToolDef)
  | content (text : String)
deriving DecidableEq

/-- `McpResponse` (the `jsonrpc: '2.0'` tag is constant and omitted). -/
structure McpResponse where
  id : RpcId
  result : Option RpcResult := none
  error : Option RpcError := none
deriving DecidableEq

/-- The flat argument object of a `tools/call`; only the properties the
capabilities read are modelled (`type`, `message`), each possibly absent. -/
structure ToolArgs where
  type : Option String := none
  message : Option String := none
deriving DecidableEq

/-- `params` of a `tools/call` request (`\x7b name, arguments? \x7d`); `name`
may be absent since JSON bodies are not schema-checked. -/
structure ToolCallParams where
  name : Option String := none
  arguments : Option ToolArgs := none
deriving DecidableEq

/-- `McpRequest` (the `jsonrpc: '2.0'` tag is constant and omitted).  `params`
is absent when the JSON body has no `params` member. -/
structure McpRequest where
  id : RpcId
  method : String
  params : Option ToolCallParams := none
deriving DecidableEq

/-! ## Capabilities and their observable side effects -/

/-- One external capability invocation performed while handling a tool call. -/
inductive Effect
  | playSound (type : String)
  | showInfoMessage (msg : String)
  | showWarningMessage (msg : String)
  | showErrorMessage (msg : String)
  | playAttention
deriving DecidableEq

/-- The injected capabilities (`NotificationManager`); each call either
returns or throws (`Except.error` carries the stringified error). -/
structure CapEnv where
  playSound : String → Except String Unit
  playAttention : Except String Unit

/-- JavaScript `x || d` on an optional string: `undefined` and `""` are falsy. -/
def jsOrStr : Option String → String → String
  | some s, d => if s = "" then d else s
  | none, d => d

/-- Rendering of an optional string inside a template literal:
`undefined` prints as "undefined". -/
def jsShow : Option String → String
  | some s => s
  | none => "undefined"

/-- `JSON.stringify(\x7b success: true \x7d)`. -/
def successText : String := "\x7b\"success\":true\x7d"

/-- `McpSseServer.handleToolCall`: dispatch on the tool name; known tools run
their capability inside a try/catch, an unknown name yields error -32602, a
thrown capability error yields -32000. -/
def handleToolCall (env : CapEnv) (id : RpcId) (params : ToolCallParams) :
    McpResponse × List Effect :=
  let args := params.arguments.getD {}
  if params.name = some "play_notification" then
    let ty := jsOrStr args.type "default"
    match env.playSound ty with
    | .error e =>
        ({ id := id, error := some { code := -32000, message := "Tool error: " ++ e } },
         [.playSound ty])
    | .ok _ =>
        let msgEffs : List Effect :=
          match args.message with
          | some m => if m = "" then [] else [.showInfoMessage m]
          | none => []
        ({ id := id, result := some (.content successText) },
         .playSound ty :: msgEffs)
  else if params.name = some "show_message" then
    let msgType := jsOrStr args.type "info"
    let msg := jsOrStr args.message ""
    let eff : Effect :=
      if msgType = "error" then .showErrorMessage msg
      else if msgType = "warning" then .showWarningMessage msg
      else .showInfoMessage msg
    ({ id := id, result := some (.content successText) }, [eff])
  else if params.name = some "play_attention" then
    match env.playAttention with
    | .error e =>
        ({ id := id, error := some { code := -32000, message := "Tool error: " ++ e } },
         [.playAttention])
    | .ok _ =>
        ({ id := id, result := some (.content successText) }, [.playAttention])
  else
    ({ id := id
     , error := some { code := -32602, message := "Unknown tool: " ++ jsShow params.name } },
     [])

/-- `McpSseServer.processMessage`: route by method.  For `tools/call` the
source destructures `params`; when `params` is absent that destructuring
throws a TypeError which escapes to `handleMessage`'s catch — modelled as
`Except.error`. -/
def processMessage (env : CapEnv) (m : McpRequest) :
    Except Unit (McpResponse × List Effect) :=
  if m.method = "initialize" then
    .ok ({ id := m.id, result := some (.initResult "2024-11-05" "ssh-bridge-mcp" "0.1.0") }, [])
  else if m.method = "notifications/initialized" then
    .ok ({ id := m.id, result := some .emptyObj }, [])
  else if m.method = "tools/list" then
    .ok ({ id := m.id, result := some (.toolsList TOOLS) }, [])
  else if m.method = "tools/call" then
    match m.params with
    | none => .error ()
    | some p => .ok (handleToolCall env m.id p)
  else if m.method = "ping" then
    .ok ({ id := m.id, result := some .emptyObj }, [])
  else
    .ok ({ id := m.id
         , error := some { code := -32601, message := "Method not found: " ++ m.method } }, [])

/-! ## SSE sessions and broadcast -/

/-- An event written to one SSE client's stream. -/
inductive SseEvent
  | endpoint (data : String)
  | message (resp : McpResponse)
deriving DecidableEq

/-- One open SSE session: the generated session id and the events delivered
to this client so far (oldest first). -/
structure Session where
  sid : String
  events : List SseEvent
deriving DecidableEq

/-- Server state: the open SSE clients (`sseClients`) and the bound port. -/
structure ServerSt where
  sseClients : List Session
  port : Nat
deriving DecidableEq

/-- `session-$\x7bDate.now()\x7d`: the session id generated at open time. -/
def sessionIdOf (now : Nat) : String := "session-" ++ toString now

/-- `McpSseServer.handleSseConnection` at time `now`: register a new session
and immediately send it the `endpoint` event naming the message URL. -/
def handleSseConnection (now : Nat) (st : ServerSt) : ServerSt :=
  let sid := sessionIdOf now
  { st with sseClients :=
      st.sseClients ++ [{ sid := sid, events := [.endpoint ("/message?sessionId=" ++ sid)] }] }

/-- Client disconnect: `sseClients.delete(res)` for the i-th open session. -/
def closeSession (i : Nat) (st : ServerSt) : ServerSt :=
  { st with sseClients := st.sseClients.take i ++ st.sseClients.drop (i + 1) }

/-- `McpSseServer.broadcastSse('message', resp)`: append the response to every
currently-open session's stream. -/
def broadcastSse (resp : McpResponse) (st : ServerSt) : ServerSt :=
  { st with sseClients :=
      st.sseClients.map fun s => { s with events := s.events ++ [.message resp] } }

/-- The body of the catch branch of `handleMessage`. -/
def parseErrorResponse : McpResponse :=
  { id := .null, error := some { code := -32700, message := "Parse error" } }

/-- The synchronous HTTP reply of `POST /message` (status code and JSON body). -/
structure HttpReply where
  status : Nat
  body : McpResponse
deriving DecidableEq

/-- `McpSseServer.handleMessage`.  `parsed` is the outcome of
`JSON.parse(body)` (`none` = parse failure).  Returns the synchronous reply,
the new server state (broadcast applied), and the capability invocations
performed.  Any throw inside `processMessage` lands in the same catch as a
parse failure. -/
def handleMessage (env : CapEnv) (parsed : Option McpRequest) (st : ServerSt) :
    HttpReply × ServerSt × List Effect :=
  match parsed with
  | none => ({ status := 400, body := parseErrorResponse }, st, [])
  | some m =>
    match processMessage env m with
    | .error _ => ({ status := 400, body := parseErrorResponse }, st, [])
    | .ok (resp, effs) => ({ status := 200, body := resp }, broadcastSse resp st, effs)

/-- The response a request is answered with when its processing does not
throw (the dangling default is never reached under that condition). -/
def responseOf (env : CapEnv) (m : McpRequest) : McpResponse :=
  match processMessage env m with
  | .ok (resp, _) => resp
  | .error _ => parseErrorResponse

/-- Process a sequence of parsed requests in arrival order. -/
def runMessages (env : CapEnv) (reqs : List McpRequest) (st : ServerSt) : ServerSt :=
  reqs.foldl (fun s m => (handleMessage env (some m) s).2.1) st

/-! ## HTTP routing and port binding -/

/-- `url.split('?')[0]`: the prefix of the url before the first `'?'`. -/
def urlPath (url : String) : String := ⟨url.data.takeWhile fun c => c != '?'⟩

/-- Body of the `/health` reply: `\x7b status: 'ok', port \x7d`. -/
structure HealthBody where
  status : String
  port : Nat
deriving DecidableEq

/-- Routing outcome of `McpSseServer.handleRequest`. -/
inductive RouteOut
  | corsPreflight
  | sse
  | message
  | health (code : Nat) (body : HealthBody)
  | notFound (code : Nat)
deriving DecidableEq

/-- `McpSseServer.handleRequest`: OPTIONS preflight, then route on the path
with the query string stripped. -/
def handleRequest (st : ServerSt) (method url : String) : RouteOut :=
  if method = "OPTIONS" then .corsPreflight
  else
    let p := urlPath url
    if p = "/sse" ∧ method = "GET" then .sse
    else if p = "/message" ∧ method = "POST" then .message
    else if p = "/health" ∧ method = "GET" then
      .health 200 { status := "ok", port := st.port }
    else .notFound 404

/-- Outcome of the listen loop: the bound port, and the host argument passed
to the successful `listen` call (`server.listen(port, '127.0.0.1', cb)` on the
first attempt, `server.listen(port)` — no host — on every retry). -/
structure BindResult where
  port : Nat
  hostArg : Option String
deriving DecidableEq

/-- The EADDRINUSE retry loop of `McpSseServer.start`: while the current port
is occupied, increment and listen again.  `fuel` bounds the retries (the real
loop runs until a free port is found). -/
def listenLoop (occupied : List Nat) : Nat → Nat → Option String → Option BindResult
  | 0, _, _ => none
  | fuel + 1, p, host =>
      if p ∈ occupied then listenLoop occupied fuel (p + 1) none
      else some { port := p, hostArg := host }

/-- `McpSseServer.start`: first attempt on the preferred port 9847 with host
`'127.0.0.1'`. -/
def startServer (occupied : List Nat) (fuel : Nat) : Option BindResult :=
  listenLoop occupied fuel 9847 (some "127.0.0.1")

end Bridge

namespace Tunnel

/-! ## Tunnel supervisor (tunnelManager.ts)

The supervisor is event-driven: subprocess exits, spawn errors and timers are
asynchronous callbacks interleaving on the event loop.  It is modelled as a
transition system: a `World` holds the heap of `TunnelState` objects ever
created (JavaScript closures keep removed states alive), the `tunnels` map,
and the pending timers / not-yet-delivered subprocess events; an `Ev` is one
event-loop turn. -/

/-- `TunnelConfig`. -/
structure TunnelConfig where
  host : String
  remotePort : Option Nat := none
  localPort : Option Nat := none
  identityFile : Option String := none
  enabled : Option Bool := none
deriving DecidableEq

/-- JavaScript `x || d` on an optional number: `undefined` and `0` are falsy. -/
def jsOrNat : Option Nat → Nat → Nat
  | some n, d => if n = 0 then d else n
  | none, d => d

/-- `TunnelManager.getTunnelKey`: `$\x7bconfig.host\x7d:$\x7bconfig.remotePort || 9847\x7d`. -/
def getTunnelKey (c : TunnelConfig) : String :=
  c.host ++ ":" ++ toString (jsOrNat c.remotePort 9847)

/-- `TunnelState.status`. -/
inductive TStatus
  | connecting
  | connected
  | disconnected
  | error
deriving DecidableEq

/-- The `ChildProcess` handle a state may own: whether the OS process is
still running, and the `killed` flag (a termination signal was sent). -/
structure ProcHandle where
  alive : Bool
  killed : Bool
deriving DecidableEq

/-- `TunnelState`.  The `reconnectTimer` handle is not stored here: pending
timers live in `World.pending` (clearTimeout on an already-fired handle is a
no-op, so membership in the pending set is the faithful rendering). -/
structure TunnelState where
  config : TunnelConfig
  process : Option ProcHandle
  status : TStatus
  lastError : Option String := none
  reconnectAttempts : Nat
deriving DecidableEq

/-- Association-list lookup (first match). -/
def alookup {α β : Type} [DecidableEq α] (k : α) : List (α × β) → Option β
  | [] => none
  | (k', v) :: t => if k' = k then some v else alookup k t

/-- Association-list removal of every binding of a key (`Map.delete`). -/
def aremove {α β : Type} [DecidableEq α] (k : α) : List (α × β) → List (α × β)
  | [] => []
  | (k', v) :: t => if k' = k then aremove k t else (k', v) :: aremove k t

/-- Update the binding of an existing key in place. -/
def aset {α β : Type} [DecidableEq α] (k : α) (v : β) (l : List (α × β)) :
    List (α × β) :=
  l.map fun p => if p.1 = k then (k, v) else p

/-- Remove the first occurrence of an element. -/
def erase1 {α : Type} [DecidableEq α] (x : α) : List α → List α
  | [] => []
  | y :: t => if y = x then t else y :: erase1 x t

/-- Number of elements of a list satisfying a predicate. -/
def cnt {α : Type} (p : α → Bool) (l : List α) : Nat := (l.filter p).length

/-- A pending cooperative callback: a reconnect timer, the 2-second
connect-confirmation timer, or a not-yet-delivered `'error'` event of a
failed spawn. -/
inductive PendingEv
  | reconTimer (sid : Nat)
  | confirmTimer (sid : Nat)
  | errEv (sid : Nat) (msg : String)
deriving DecidableEq

/-- The heap id a pending event refers to. -/
def PendingEv.sid : PendingEv → Nat
  | .reconTimer s => s
  | .confirmTimer s => s
  | .errEv s _ => s

/-- The supervisor world.  `heap` keeps every `TunnelState` ever allocated
(keyed by an allocation counter `nextSid`); `tmap` is the `tunnels` map;
`schedLog` records each reconnect-timer scheduling (the state it is for);
`connLog` records each invocation of `connect`. -/
structure World where
  heap : List (Nat × TunnelState)
  tmap : List (String × Nat)
  nextSid : Nat
  pending : List PendingEv
  schedLog : List Nat
  connLog : List Nat
deriving DecidableEq

/-- The world at process start. -/
def init : World :=
  { heap := [], tmap := [], nextSid := 0, pending := [], schedLog := [], connLog := [] }

def maxReconnectAttempts : Nat := 10

def baseReconnectDelay : ℚ := 3000

/-- `TunnelManager.scheduleReconnect`, state change and scheduled delay:
at the attempt cap the status becomes a terminal error and nothing is
scheduled; otherwise the counter is incremented and a timer for
`min(baseReconnectDelay * 1.5 ^ (attempts - 1), 60000)` ms is set. -/
def scheduleReconnectCore (s : TunnelState) : TunnelState × Option ℚ :=
  if s.reconnectAttempts ≥ maxReconnectAttempts then
    ({ s with status := .error, lastError := some "Max reconnect attempts reached" }, none)
  else
    let a := s.reconnectAttempts + 1
    ({ s with reconnectAttempts := a },
     some (min (baseReconnectDelay * (3 / 2 : ℚ) ^ (a - 1)) 60000))

/-- `scheduleReconnect` acting on the world: update the state and, unless the
cap was hit, register the pending reconnect timer. -/
def scheduleReconnectW (sid : Nat) (w : World) : World :=
  match alookup sid w.heap with
  | none => w
  | some s =>
    match scheduleReconnectCore s with
    | (s', none) => { w with heap := aset sid s' w.heap }
    | (s', some _) =>
        { w with heap := aset sid s' w.heap
               , pending := w.pending ++ [.reconTimer sid]
               , schedLog := w.schedLog ++ [sid] }

/-- Outcome of `spawn('ssh', ...)`: either the subprocess starts (the
`'spawn'` event will fire and the 2-second confirmation timer is set), or
spawning fails (the handle exists but no OS process does, and an `'error'`
event is delivered later). -/
inductive SpawnRes
  | ok
  | errSpawn (msg : String)
deriving DecidableEq

/-- `TunnelManager.connect`: spawn the ssh subprocess and store its handle in
`state.process`. -/
def connect (sid : Nat) (res : SpawnRes) (w : World) : World :=
  match alookup sid w.heap with
  | none => w
  | some s =>
    let w' := { w with connLog := w.connLog ++ [sid] }
    match res with
    | .ok =>
        { w' with heap := aset sid { s with process := some { alive := true, killed := false } } w'.heap
                , pending := w'.pending ++ [.confirmTimer sid] }
    | .errSpawn _ =>
        { w' with heap := aset sid { s with process := some { alive := false, killed := false } } w'.heap
                , pending := w'.pending ++ [.errEv sid (match res with | .errSpawn m => m | .ok => "")] }

/-- `process.kill()`: marks the handle killed; the OS process keeps running
until its exit event (`Ev.procDies`) is processed.  A no-op on a handle whose
process never ran or already exited. -/
def killProc (s : TunnelState) : TunnelState :=
  match s.process with
  | some h => if h.alive then { s with process := some { h with killed := true } } else s
  | none => s

/-- `TunnelManager.stopTunnel`: clear the pending reconnect timer, kill the
subprocess if present, remove the key from the map.  (The state object itself
survives in the heap: the subprocess's event handlers still reference it.) -/
def stopTunnelW (key : String) (w : World) : World :=
  match alookup key w.tmap with
  | none => w
  | some sid =>
    match alookup sid w.heap with
    | none => w
    | some s =>
      { w with heap := aset sid (killProc s) w.heap
             , tmap := aremove key w.tmap
             , pending := w.pending.filter fun e => e ≠ .reconTimer sid }

/-- A fresh `TunnelState` as built by `startTunnel`. -/
def newState (c : TunnelConfig) : TunnelState :=
  { config := c, process := none, status := .connecting, reconnectAttempts := 0 }

/-- `TunnelManager.startTunnel`: stop any existing tunnel for the key, create
a fresh state, register it, connect. -/
def startTunnelW (c : TunnelConfig) (res : SpawnRes) (w : World) : World :=
  let key := getTunnelKey c
  let w1 := stopTunnelW key w
  let sid := w1.nextSid
  let w2 := { w1 with heap := (sid, newState c) :: w1.heap
                    , tmap := w1.tmap ++ [(key, sid)]
                    , nextSid := sid + 1 }
  connect sid res w2

/-- The `'exit'` handler of the ssh subprocess: null the handle, demote
`connected` to `disconnected`, schedule a reconnect. -/
def exitHandler (sid : Nat) (w : World) : World :=
  match alookup sid w.heap with
  | none => w
  | some s =>
    let s' := { s with process := none
                     , status := if s.status = .connected then .disconnected else s.status }
    scheduleReconnectW sid { w with heap := aset sid s' w.heap }

/-- One event-loop turn: an API call, the death of a running subprocess (its
`'exit'` handler runs), or a pending timer / `'error'` event firing. -/
inductive Ev
  | apiStart (c : TunnelConfig) (res : SpawnRes)
  | apiStop (key : String)
  | procDies (sid : Nat)
  | fireRecon (sid : Nat) (res : SpawnRes)
  | fireConfirm (sid : Nat)
  | fireErr (sid : Nat) (msg : String)
deriving DecidableEq

/-- The transition function.  Events whose guard does not hold (no such
process alive, no such timer pending) leave the world unchanged. -/
def step (w : World) : Ev → World
  | .apiStart c res => startTunnelW c res w
  | .apiStop key => stopTunnelW key w
  | .procDies sid =>
      match alookup sid w.heap with
      | some s =>
          match s.process with
          | some h => if h.alive then exitHandler sid w else w
          | none => w
      | none => w
  | .fireRecon sid res =>
      if PendingEv.reconTimer sid ∈ w.pending then
        let w1 := { w with pending := erase1 (.reconTimer sid) w.pending }
        match alookup sid w1.heap with
        | none => w1
        | some s =>
            connect sid res { w1 with heap := aset sid { s with status := .connecting } w1.heap }
      else w
  | .fireConfirm sid =>
      if PendingEv.confirmTimer sid ∈ w.pending then
        let w1 := { w with pending := erase1 (.confirmTimer sid) w.pending }
        match alookup sid w1.heap with
        | none => w1
        | some s =>
            match s.process with
            | some h =>
                if h.killed then w1
                else { w1 with heap := aset sid { s with status := .connected, reconnectAttempts := 0 } w1.heap }
            | none => w1
      else w
  | .fireErr sid msg =>
      if PendingEv.errEv sid msg ∈ w.pending then
        let w1 := { w with pending := erase1 (.errEv sid msg) w.pending }
        match alookup sid w1.heap with
        | none => w1
        | some s =>
            scheduleReconnectW sid
              { w1 with heap := aset sid { s with status := .error, lastError := some msg } w1.heap }
      else w

/-- Run a sequence of event-loop turns. -/
def run (w : World) (evs : List Ev) : World := evs.foldl step w

/-- The worlds the supervisor can actually be in. -/
inductive Reachable : World → Prop
  | refl : Reachable init
  | tail {w : World} (e : Ev) : Reachable w → Reachable (step w e)

/-- Whether the state `sid` currently owns a running OS subprocess. -/
def aliveAt (w : World) (sid : Nat) : Bool :=
  match alookup sid w.heap with
  | some s => match s.process with | some h => h.alive | none => false
  | none => false

/-- Number of pending reconnect timers for `sid`. -/
def reconCount (sid : Nat) (w : World) : Nat :=
  cnt (fun e => e = .reconTimer sid) w.pending

/-- Whether a pending event is a spawn-`'error'` event for `sid`. -/
def errPred (sid : Nat) : PendingEv → Bool
  | .errEv s _ => s = sid
  | _ => false

/-- Number of pending spawn-`'error'` events for `sid`. -/
def errCount (sid : Nat) (w : World) : Nat :=
  cnt (errPred sid) w.pending

/-- Number of `connect` invocations recorded for `sid`. -/
def connCount (sid : Nat) (w : World) : Nat :=
  cnt (fun x => x = sid) w.connLog

/-- Number of reconnect-timer schedulings recorded for `sid`. -/
def schedCount (sid : Nat) (w : World) : Nat :=
  cnt (fun x => x = sid) w.schedLog

/-- Number of running subprocesses owned by states whose config derives the
given tunnel key. -/
def liveForKey (key : String) (w : World) : Nat :=
  cnt (fun p => (getTunnelKey p.2.config == key) &&
        match p.2.process with | some h => h.alive | none => false) w.heap

end Tunnel


namespace Bridge

/-! ## Decimal rendering

`Date.now()` is rendered into the session id through `Nat.repr`; the facts
below recover injectivity of that rendering. -/

/-- Decimal digit value of a character. -/
def charToDigit (c : Char) : Nat := c.toNat - 48

/-- Value of a decimal digit string. -/
def decValue (cs : List Char) : Nat := cs.foldl (fun a c => 10 * a + charToDigit c) 0

theorem charToDigit_digitChar : ∀ d : Nat, d < 10 → charToDigit (Nat.digitChar d) = d := by
  decide

theorem toDigitsCore_acc (b : Nat) :
    ∀ (fuel n : Nat) (ds : List Char),
      Nat.toDigitsCore b fuel n ds = Nat.toDigitsCore b fuel n [] ++ ds := by
  intro fuel
  induction fuel with
  | zero => intro n ds; simp [Nat.toDigitsCore]
  | succ f ih =>
      intro n ds
      simp only [Nat.toDigitsCore]
      by_cases h : n / b = 0
      · simp [h]
      · simp only [h, if_neg h]
        rw [ih (n / b) (Nat.digitChar (n % b) :: ds), ih (n / b) [Nat.digitChar (n % b)]]
        simp

theorem toDigitsCore_fuel (b : Nat) (hb : 2 ≤ b) :
    ∀ (n fuel fuel' : Nat), n < fuel → n < fuel' →
      Nat.toDigitsCore b fuel n [] = Nat.toDigitsCore b fuel' n [] := by
  intro n
  induction n using Nat.strong_induction_on with
  | _ n ih =>
      intro fuel fuel' hf hf'
      match fuel, fuel' with
      | f + 1, f' + 1 =>
        simp only [Nat.toDigitsCore]
        by_cases h : n / b = 0
        · simp [h]
        · simp only [h, if_neg h]
          have hn : 0 < n := by
            rcases Nat.eq_zero_or_pos n with h0 | h0
            · exfalso; apply h; simp [h0]
            · exact h0
          have hdiv : n / b < n := Nat.div_lt_self hn (by omega)
          rw [toDigitsCore_acc, toDigitsCore_acc b f']
          rw [ih (n / b) hdiv f f' (by omega) (by omega)]

theorem toDigits_unfold (n : Nat) :
    Nat.toDigits 10 n =
      if n < 10 then [Nat.digitChar n]
      else Nat.toDigits 10 (n / 10) ++ [Nat.digitChar (n % 10)] := by
  by_cases h : n < 10
  · have h10 : n / 10 = 0 := Nat.div_eq_of_lt h
    have hmod : n % 10 = n := Nat.mod_eq_of_lt h
    simp [Nat.toDigits, Nat.toDigitsCore, h10, hmod, h]
  · have hn : 0 < n := by omega
    have h10 : ¬ n / 10 = 0 := by
      intro h0
      have hm : n % 10 < 10 := Nat.mod_lt _ (by omega)
      have := Nat.div_add_mod n 10
      omega
    have hdiv : n / 10 < n := Nat.div_lt_self hn (by omega)
    rw [if_neg h]
    show Nat.toDigitsCore 10 (n + 1) n [] = _
    have step1 : Nat.toDigitsCore 10 (n + 1) n [] =
        Nat.toDigitsCore 10 n (n / 10) [Nat.digitChar (n % 10)] := by
      simp only [Nat.toDigitsCore]
      rw [if_neg h10]
    rw [step1, toDigitsCore_acc]
    show _ = Nat.toDigitsCore 10 (n / 10 + 1) (n / 10) [] ++ [Nat.digitChar (n % 10)]
    congr 1
    exact toDigitsCore_fuel 10 (by omega) (n / 10) n (n / 10 + 1) hdiv (Nat.lt_succ_self _)

theorem decValue_toDigits : ∀ n : Nat, decValue (Nat.toDigits 10 n) = n := by
  intro n
  induction n using Nat.strong_induction_on with
  | _ n ih =>
      rw [toDigits_unfold]
      by_cases h : n < 10
      · simp [h, decValue, charToDigit_digitChar n h]
      · simp only [if_neg h]
        have hn : 0 < n := by omega
        have hdiv : n / 10 < n := Nat.div_lt_self hn (by omega)
        have hv := ih (n / 10) hdiv
        simp only [decValue, List.foldl_append, List.foldl] at *
        rw [hv, charToDigit_digitChar (n % 10) (Nat.mod_lt n (by omega))]
        omega

theorem natRepr_inj {m n : Nat} (h : Nat.repr m = Nat.repr n) : m = n := by
  have hd : Nat.toDigits 10 m = Nat.toDigits 10 n := by
    have := congrArg String.data h
    simpa [Nat.repr] using this
  have := congrArg decValue hd
  rwa [decValue_toDigits, decValue_toDigits] at this

theorem sessionIdOf_inj {t1 t2 : Nat} (h : sessionIdOf t1 = sessionIdOf t2) : t1 = t2 := by
  have hd := congrArg String.data h
  simp only [sessionIdOf, String.data_append] at hd
  have hdata : (toString t1).data = (toString t2).data := List.append_cancel_left hd
  exact natRepr_inj (congrArg String.mk hdata)

end Bridge

namespace Bridge

/-- A capability environment whose calls all succeed. -/
def envOk : CapEnv := { playSound := fun _ => .ok (), playAttention := .ok () }

/-- The effects a request causes when its processing does not throw. -/
def effectsOf (env : CapEnv) (m : McpRequest) : List Effect :=
  match processMessage env m with
  | .ok (_, effs) => effs
  | .error _ => []

theorem processMessage_ok (env : CapEnv) (m : McpRequest)
    (hm : ¬(m.method = "tools/call" ∧ m.params = none)) :
    processMessage env m = .ok (responseOf env m, effectsOf env m) := by
  rcases hres : processMessage env m with u | ⟨r, effs⟩
  · exfalso
    apply hm
    unfold processMessage at hres
    split_ifs at hres with h1 h2 h3 h4 h5
    refine ⟨h4, ?_⟩
    cases hp : m.params with
    | none => rfl
    | some p => rw [hp] at hres; exact absurd hres (by simp)
  · simp [responseOf, effectsOf, hres]

theorem broadcastSse_get (r : McpResponse) (st : ServerSt) (i : Nat) :
    (broadcastSse r st).sseClients[i]? =
      (st.sseClients[i]?).map fun s => { s with events := s.events ++ [.message r] } := by
  simp [broadcastSse, List.getElem?_map]

theorem handleMessage_ok (env : CapEnv) (m : McpRequest) (st : ServerSt)
    (hm : ¬(m.method = "tools/call" ∧ m.params = none)) :
    handleMessage env (some m) st =
      ({ status := 200, body := responseOf env m },
       broadcastSse (responseOf env m) st, effectsOf env m) := by
  simp [handleMessage, processMessage_ok env m hm]

theorem runMessages_cons (env : CapEnv) (m : McpRequest) (rs : List McpRequest) (st : ServerSt) :
    runMessages env (m :: rs) st = runMessages env rs (handleMessage env (some m) st).2.1 := rfl

theorem runMessages_events (env : CapEnv) (reqs : List McpRequest) :
    ∀ st : ServerSt, (∀ m ∈ reqs, ¬(m.method = "tools/call" ∧ m.params = none)) →
      ∀ i : Nat, ((runMessages env reqs st).sseClients[i]?).map Session.events =
        (st.sseClients[i]?).map fun s =>
          s.events ++ reqs.map fun m => SseEvent.message (responseOf env m) := by
  induction reqs with
  | nil =>
      intro st _ i
      have hnil : runMessages env [] st = st := rfl
      rw [hnil]
      cases st.sseClients[i]? <;> simp
  | cons m rs ih =>
      intro st h i
      have hm : ¬(m.method = "tools/call" ∧ m.params = none) := h m (by simp)
      have hrs : ∀ m' ∈ rs, ¬(m'.method = "tools/call" ∧ m'.params = none) :=
        fun m' hm' => h m' (by simp [hm'])
      rw [runMessages_cons, ih _ hrs i, handleMessage_ok env m st hm]
      rw [broadcastSse_get]
      cases st.sseClients[i]? <;> simp

end Bridge

namespace Bridge

/-- C4: a POST /message whose body fails to parse is answered with exactly
id null / code -32700 / message "Parse error" (HTTP 400); no capability runs
and nothing is broadcast (the server state is returned unchanged). -/
theorem parse_failure_exact_reply_no_side_effects (env : CapEnv) (st : ServerSt) :
    handleMessage env none st =
      ({ status := 400
       , body := { id := .null, error := some { code := -32700, message := "Parse error" } } },
       st, []) := rfl

/-- C5: a tools/call naming a tool outside the registry is answered with error
code -32602 and runs no capability (empty effect list). -/
theorem unknown_tool_rejected_no_capability (env : CapEnv) (id : RpcId)
    (p : ToolCallParams) (s : String) (hname : p.name = some s)
    (hreg : s ∉ TOOLS.map ToolDef.name) :
    handleToolCall env id p =
      ({ id := id, error := some { code := -32602, message := "Unknown tool: " ++ s } }, []) := by
  have hmap : TOOLS.map ToolDef.name = ["play_notification", "show_message", "play_attention"] := rfl
  rw [hmap] at hreg
  simp only [List.mem_cons, List.not_mem_nil, or_false] at hreg
  push_neg at hreg
  obtain ⟨h1, h2, h3⟩ := hreg
  unfold handleToolCall
  rw [hname]
  rw [if_neg (by simp [h1]), if_neg (by simp [h2]), if_neg (by simp [h3])]
  simp [jsShow]

def unknownToolParams : ToolCallParams := { name := some "no_such_tool" }

/-- Witness for C5 at the concrete unregistered name "no_such_tool". -/
theorem unknown_tool_rejected_no_capability_witness :
    handleToolCall envOk (.num 1) unknownToolParams =
      ({ id := .num 1
       , error := some { code := -32602, message := "Unknown tool: " ++ "no_such_tool" } }, []) :=
  unknown_tool_rejected_no_capability envOk (.num 1) unknownToolParams "no_such_tool" rfl
    (by decide)

/-- C1 counterexample: the successfully parsed request tools/call WITHOUT a
params member is answered (the destructuring TypeError lands in the catch,
yielding the -32700 body) but never broadcast: with one open session, no
session receives a delivery — refuting "every successfully parsed request is
broadcast exactly once to each open session". -/
theorem toolsCall_without_params_not_broadcast :
    ¬ (∀ (env : CapEnv) (st : ServerSt) (m : McpRequest),
        (handleMessage env (some m) st).2.1.sseClients.map (fun s => s.events.length) =
          st.sseClients.map fun s => s.events.length + 1) := by
  intro hcl
  have := hcl envOk { sseClients := [{ sid := "session-0", events := [] }], port := 9847 }
    { id := .num 1, method := "tools/call", params := none }
  revert this
  decide

/-- C1 (amended): for every successfully parsed request except a tools/call
arriving without a params object (whose processing throws before the
broadcast), the response is written back synchronously (status 200, body = the
produced response) and is broadcast exactly once to each open session: the
session list keeps its length and ids, every session's stream is extended by
exactly the one message event, and over any sequence of such requests each
session's stream gains exactly the issued responses in issuance order. -/
theorem parsed_request_broadcast_once_ordered (env : CapEnv) (st : ServerSt) (m : McpRequest)
    (hm : ¬(m.method = "tools/call" ∧ m.params = none)) :
    (handleMessage env (some m) st).1 = { status := 200, body := responseOf env m } ∧
    (handleMessage env (some m) st).2.1.sseClients.length = st.sseClients.length ∧
    (∀ i : Nat, (((handleMessage env (some m) st).2.1.sseClients[i]?).map Session.sid) =
       (st.sseClients[i]?).map Session.sid) ∧
    (∀ i : Nat, (((handleMessage env (some m) st).2.1.sseClients[i]?).map Session.events) =
       (st.sseClients[i]?).map fun s => s.events ++ [SseEvent.message (responseOf env m)]) ∧
    ∀ reqs : List McpRequest,
      (∀ m' ∈ reqs, ¬(m'.method = "tools/call" ∧ m'.params = none)) →
      ∀ i : Nat, ((runMessages env reqs st).sseClients[i]?).map Session.events =
        (st.sseClients[i]?).map fun s =>
          s.events ++ reqs.map fun m' => SseEvent.message (responseOf env m') := by
  rw [handleMessage_ok env m st hm]
  refine ⟨rfl, by simp [broadcastSse], ?_, ?_, ?_⟩
  · intro i; rw [broadcastSse_get]; cases st.sseClients[i]? <;> simp
  · intro i; rw [broadcastSse_get]; cases st.sseClients[i]? <;> simp
  · exact fun reqs h i => runMessages_events env reqs st h i

def pingReq : McpRequest := { id := .num 7, method := "ping" }

def twoSessionsSt : ServerSt :=
  { sseClients := [{ sid := "session-1", events := [] }, { sid := "session-2", events := [] }]
  , port := 9847 }

/-- Witness for C1's amended theorem: a ping with two open sessions. -/
theorem parsed_request_broadcast_once_ordered_witness :
    ((handleMessage envOk (some pingReq) twoSessionsSt).2.1.sseClients[0]?).map Session.events =
      (twoSessionsSt.sseClients[0]?).map
        (fun s => s.events ++ [SseEvent.message (responseOf envOk pingReq)]) ∧
    (handleMessage envOk (some pingReq) twoSessionsSt).2.1.sseClients.length = 2 := by
  refine ⟨(parsed_request_broadcast_once_ordered envOk twoSessionsSt pingReq (by decide)).2.2.2.1 0, ?_⟩
  rw [(parsed_request_broadcast_once_ordered envOk twoSessionsSt pingReq (by decide)).2.1]
  rfl

def opensAll (ts : List Nat) (st : ServerSt) : ServerSt :=
  ts.foldl (fun s t => handleSseConnection t s) st

def emptySt : ServerSt := { sseClients := [], port := 9847 }

/-- C8 counterexample: two push-channel opens in the same millisecond (both
observe Date.now() = 100) yield two simultaneously open sessions with the
same id "session-100". -/
theorem sessionId_collision_same_millisecond :
    ¬ (∀ ts : List Nat, ((opensAll ts emptySt).sseClients.map Session.sid).Nodup) := by
  intro hcl
  exact absurd (hcl [100, 100]) (by decide)

theorem opensAll_sids (ts : List Nat) :
    ∀ st : ServerSt, (opensAll ts st).sseClients.map Session.sid =
      st.sseClients.map Session.sid ++ ts.map sessionIdOf := by
  induction ts with
  | nil => intro st; simp [opensAll]
  | cons t rs ih =>
      intro st
      have hc : opensAll (t :: rs) st = opensAll rs (handleSseConnection t st) := rfl
      rw [hc, ih]
      simp [handleSseConnection]

/-- C8 (amended): session ids are unique among open sessions provided no two
opens observe the same Date.now() millisecond: for every duplicate-free list
of open timestamps, the generated session ids are pairwise distinct. -/
theorem sessionIds_unique_of_distinct_times (ts : List Nat) (hts : ts.Nodup) :
    ((opensAll ts emptySt).sseClients.map Session.sid).Nodup := by
  rw [opensAll_sids ts emptySt]
  have hemp : emptySt.sseClients.map Session.sid = [] := rfl
  rw [hemp, List.nil_append]
  exact hts.map fun t1 t2 h => sessionIdOf_inj h

/-- Witness for C8's amended theorem at two distinct timestamps. -/
theorem sessionIds_unique_of_distinct_times_witness :
    ((opensAll [100, 131] emptySt).sseClients.map Session.sid).Nodup :=
  sessionIds_unique_of_distinct_times [100, 131] (by decide)

theorem listenLoop_least (occ : List Nat) :
    ∀ (fuel p : Nat) (host : Option String) (br : BindResult),
      listenLoop occ fuel p host = some br →
      br.port ∉ occ ∧ p ≤ br.port ∧ ∀ q, p ≤ q → q < br.port → q ∈ occ := by
  intro fuel
  induction fuel with
  | zero => intro p host br h; simp [listenLoop] at h
  | succ f ih =>
      intro p host br h
      simp only [listenLoop] at h
      by_cases hp : p ∈ occ
      · rw [if_pos hp] at h
        obtain ⟨h1, h2, h3⟩ := ih (p + 1) none br h
        refine ⟨h1, by omega, fun q hq1 hq2 => ?_⟩
        rcases Nat.eq_or_lt_of_le hq1 with rfl | hlt
        · exact hp
        · exact h3 q (by omega) hq2
      · rw [if_neg hp] at h
        injection h with h2
        cases h2
        refine ⟨hp, Nat.le_refl _, fun q hq1 hq2 => ?_⟩
        exact absurd (Nat.lt_of_le_of_lt hq1 hq2) (Nat.lt_irrefl p)

/-- C9: GET /health while running is answered 200 with status "ok" and the
actually bound port; the bound port is the least free port at or above the
preferred 9847 (so it differs from 9847 exactly when 9847 was taken, as in
the concrete instance occupied = [9847] where the server binds 9848). -/
theorem health_reports_bound_port (occ : List Nat) (fuel : Nat) (br : BindResult)
    (h : startServer occ fuel = some br) :
    (∀ st : ServerSt, st.port = br.port →
       handleRequest st "GET" "/health" = .health 200 { status := "ok", port := br.port }) ∧
    br.port ∉ occ ∧ 9847 ≤ br.port ∧ (∀ q, 9847 ≤ q → q < br.port → q ∈ occ) ∧
    startServer [9847] 2 = some { port := 9848, hostArg := none } := by
  obtain ⟨h1, h2, h3⟩ := listenLoop_least occ fuel 9847 (some "127.0.0.1") br h
  refine ⟨?_, h1, h2, h3, by decide⟩
  intro st hst
  have hroute : handleRequest st "GET" "/health" =
      .health 200 { status := "ok", port := st.port } := rfl
  rw [hroute, hst]

def port9848St : ServerSt := { sseClients := [], port := 9848 }

/-- Witness for C9 with the preferred port taken: the server binds 9848 and
health reports it. -/
theorem health_reports_bound_port_witness :
    handleRequest port9848St "GET" "/health" =
      .health 200 { status := "ok", port := 9848 } ∧ (9848 : Nat) ∉ [9847] :=
  ⟨(health_reports_bound_port [9847] 2 { port := 9848, hostArg := none } (by decide)).1
     port9848St rfl,
   (health_reports_bound_port [9847] 2 { port := 9848, hostArg := none } (by decide)).2.1⟩

theorem listenLoop_host_none (occ : List Nat) :
    ∀ (fuel p : Nat) (br : BindResult),
      listenLoop occ fuel p none = some br → br.hostArg = none := by
  intro fuel
  induction fuel with
  | zero => intro p br h; simp [listenLoop] at h
  | succ f ih =>
      intro p br h
      simp only [listenLoop] at h
      by_cases hp : p ∈ occ
      · rw [if_pos hp] at h; exact ih _ br h
      · rw [if_neg hp] at h
        injection h with h2
        cases h2
        rfl

/-- C10 counterexample: when the preferred port 9847 is already taken, the
retry listen call passes no host argument, so the server is NOT bound to
127.0.0.1 — refuting "the listening socket is always bound to loopback". -/
theorem retry_bind_not_loopback :
    ¬ (∀ (occ : List Nat) (fuel : Nat) (br : BindResult),
        startServer occ fuel = some br → br.hostArg = some "127.0.0.1") := by
  intro hcl
  have := hcl [9847] 2 { port := 9848, hostArg := none } (by decide)
  revert this
  decide

/-- C10 (amended): the initial listen targets 127.0.0.1; binding lands on the
loopback interface iff no retry was needed (the preferred port 9847 was
free); after any EADDRINUSE retry the listen call carries no host argument
(wildcard bind). -/
theorem bind_loopback_iff_first_attempt (occ : List Nat) (fuel : Nat) (br : BindResult)
    (h : startServer occ fuel = some br) :
    ((9847 : Nat) ∉ occ → br = { port := 9847, hostArg := some "127.0.0.1" }) ∧
    ((9847 : Nat) ∈ occ → br.hostArg = none) := by
  unfold startServer at h
  constructor
  · intro hno
    cases fuel with
    | zero => simp [listenLoop] at h
    | succ f =>
        simp only [listenLoop] at h
        rw [if_neg hno] at h
        injection h with h2
        cases h2
        rfl
  · intro hyes
    cases fuel with
    | zero => simp [listenLoop] at h
    | succ f =>
        simp only [listenLoop] at h
        rw [if_pos hyes] at h
        exact listenLoop_host_none occ f 9848 br h

/-- Witness for C10's amended theorem on both sides of the conjunction. -/
theorem bind_loopback_iff_first_attempt_witness :
    ({ port := 9847, hostArg := some "127.0.0.1" } : BindResult) =
      { port := 9847, hostArg := some "127.0.0.1" } ∧
    ({ port := 9848, hostArg := none } : BindResult).hostArg = none :=
  ⟨(bind_loopback_iff_first_attempt [] 1 { port := 9847, hostArg := some "127.0.0.1" }
      (by decide)).1 (by decide),
   (bind_loopback_iff_first_attempt [9847] 2 { port := 9848, hostArg := none }
      (by decide)).2 (by decide)⟩

end Bridge

namespace Tunnel

def cfgHostPort : TunnelConfig := { host := "a@h:2200", remotePort := some 9000 }

def cfgHostOnly : TunnelConfig := { host := "a@h" }

/-- C6: the tunnel key is host-spec ++ ":" ++ remote port (default 9847);
the two example configs derive the documented keys and occupy two distinct
entries of the supervisor map. -/
theorem tunnelKey_derivation :
    getTunnelKey cfgHostPort = "a@h:2200:9000" ∧
    getTunnelKey cfgHostOnly = "a@h:9847" ∧
    getTunnelKey cfgHostPort ≠ getTunnelKey cfgHostOnly ∧
    (alookup "a@h:2200:9000" (run init [.apiStart cfgHostPort .ok, .apiStart cfgHostOnly .ok]).tmap
       = some 0 ∧
     alookup "a@h:9847" (run init [.apiStart cfgHostPort .ok, .apiStart cfgHostOnly .ok]).tmap
       = some 1 ∧
     (run init [.apiStart cfgHostPort .ok, .apiStart cfgHostOnly .ok]).tmap.length = 2) := by
  decide

def cfgReplaced : TunnelConfig := { host := "a@h" }

/-- C7 (violated by the code): calling startTunnel again for a key with a live
subprocess kills the old process, but the killed process's exit handler still
calls scheduleReconnect on the removed state, whose timer then reconnects it:
right after the replacement two subprocesses for the key are live, and after
the old one's exit and timer the removed state's connect runs again — a
reconnect of the removed state — giving two live subprocesses once more. -/
theorem startTunnel_replacement_leaks_reconnect :
    liveForKey "a@h:9847" (run init [.apiStart cfgReplaced .ok, .apiStart cfgReplaced .ok]) = 2 ∧
    connCount 0 (run init [.apiStart cfgReplaced .ok, .apiStart cfgReplaced .ok,
      .procDies 0, .fireRecon 0 .ok]) = 2 ∧
    alookup "a@h:9847" (run init [.apiStart cfgReplaced .ok, .apiStart cfgReplaced .ok,
      .procDies 0, .fireRecon 0 .ok]).tmap = some 1 ∧
    liveForKey "a@h:9847" (run init [.apiStart cfgReplaced .ok, .apiStart cfgReplaced .ok,
      .procDies 0, .fireRecon 0 .ok]) = 2 := by
  decide

end Tunnel

namespace Tunnel

/-! ### Association-list and counting facts -/

theorem alookup_cons {α β : Type} [DecidableEq α] (k k' : α) (v : β) (t : List (α × β)) :
    alookup k ((k', v) :: t) = if k' = k then some v else alookup k t := rfl

theorem aset_cons {α β : Type} [DecidableEq α] (k k' : α) (v v' : β) (t : List (α × β)) :
    aset k v ((k', v') :: t) = (if k' = k then (k, v) else (k', v')) :: aset k v t := rfl

theorem aremove_cons {α β : Type} [DecidableEq α] (k k' : α) (v' : β) (t : List (α × β)) :
    aremove k ((k', v') :: t) = if k' = k then aremove k t else (k', v') :: aremove k t := rfl

theorem alookup_aset_self {α β : Type} [DecidableEq α] (k : α) (v : β) (l : List (α × β)) :
    alookup k (aset k v l) = (alookup k l).map fun _ => v := by
  induction l with
  | nil => rfl
  | cons p t ih =>
      rcases p with ⟨k', v'⟩
      by_cases h : k' = k
      · subst h
        simp [aset_cons, alookup_cons]
      · simp [aset_cons, alookup_cons, h, ih]

theorem alookup_aset_ne {α β : Type} [DecidableEq α] {k k' : α} (v : β) (l : List (α × β))
    (h : k' ≠ k) : alookup k' (aset k v l) = alookup k' l := by
  induction l with
  | nil => rfl
  | cons p t ih =>
      rcases p with ⟨k'', v''⟩
      by_cases hk : k'' = k
      · subst hk
        have h1 : ¬ k'' = k' := fun hh => h hh.symm
        simp [aset_cons, alookup_cons, h1, ih]
      · simp [aset_cons, alookup_cons, hk, ih]

theorem alookup_aremove_self {α β : Type} [DecidableEq α] (k : α) (l : List (α × β)) :
    alookup k (aremove k l) = none := by
  induction l with
  | nil => rfl
  | cons p t ih =>
      rcases p with ⟨k', v'⟩
      by_cases h : k' = k
      · simp [aremove_cons, h, ih]
      · simp [aremove_cons, alookup_cons, h, ih]

theorem erase1_cons {α : Type} [DecidableEq α] (x y : α) (t : List α) :
    erase1 x (y :: t) = if y = x then t else y :: erase1 x t := rfl

theorem cnt_nil {α : Type} (p : α → Bool) : cnt p [] = 0 := rfl

theorem cnt_cons {α : Type} (p : α → Bool) (x : α) (l : List α) :
    cnt p (x :: l) = (if p x then 1 else 0) + cnt p l := by
  by_cases h : p x
  · simp [cnt, List.filter_cons, h]
    omega
  · simp [cnt, List.filter_cons, h]

theorem cnt_append {α : Type} (p : α → Bool) (l l' : List α) :
    cnt p (l ++ l') = cnt p l + cnt p l' := by
  simp [cnt, List.filter_append]

theorem cnt_erase1_not {α : Type} [DecidableEq α] {p : α → Bool} {x : α} (h : p x = false)
    (l : List α) : cnt p (erase1 x l) = cnt p l := by
  induction l with
  | nil => rfl
  | cons y t ih =>
      rw [erase1_cons]
      by_cases hyx : y = x
      · subst hyx
        rw [if_pos rfl, cnt_cons, h]
        simp
      · rw [if_neg hyx, cnt_cons, cnt_cons, ih]

theorem cnt_pos_of_mem {α : Type} {p : α → Bool} {x : α} {l : List α} (hm : x ∈ l)
    (h : p x = true) : 0 < cnt p l := by
  have hmem : x ∈ l.filter p := List.mem_filter.mpr ⟨hm, h⟩
  have hne : l.filter p ≠ [] := List.ne_nil_of_mem hmem
  have := List.length_pos.mpr hne
  simpa [cnt] using this

theorem not_mem_of_cnt_zero {α : Type} [DecidableEq α] {x : α} {l : List α}
    (h : cnt (fun e => e = x) l = 0) : x ∉ l := by
  intro hm
  have h1 : (fun e => decide (e = x)) x = true := decide_eq_true rfl
  have h2 := cnt_pos_of_mem (p := fun e => decide (e = x)) hm h1
  omega

theorem cnt_filter_le {α : Type} (p q : α → Bool) (l : List α) :
    cnt p (l.filter q) ≤ cnt p l := by
  induction l with
  | nil => simp [cnt]
  | cons y t ih =>
      by_cases hq : q y
      · by_cases hp : p y <;> simp [List.filter_cons, hq, cnt_cons, hp] <;> omega
      · by_cases hp : p y <;> simp [List.filter_cons, hq, cnt_cons, hp] <;> omega

theorem cnt_filter_zero {α : Type} {p q : α → Bool} (h : ∀ a, p a = true → q a = false)
    (l : List α) : cnt p (l.filter q) = 0 := by
  induction l with
  | nil => simp [cnt]
  | cons y t ih =>
      by_cases hq : q y
      · have hp : p y = false := by
          by_cases hp : p y
          · exact absurd (h y hp) (by simp [hq])
          · simpa using hp
        simp [List.filter_cons, hq, cnt_cons, hp, ih]
      · simp [List.filter_cons, hq, ih]

end Tunnel

namespace Tunnel

/-- C2 (amended): the delay scheduled for reconnect attempt k (counter k-1
before the call, k ≤ 10 = maxReconnectAttempts) is
min(3000 * 1.5 ^ (k - 1), 60000) — 3000 for attempt 1, 10125 for attempt 4;
a reconnect request that finds the counter already at maxReconnectAttempts
sets terminal status error and schedules no timer (the pending set is left
unchanged).  Reaching counter 10 alone is not terminal: the already-scheduled
10th attempt can still succeed and reset the counter. -/
theorem scheduleReconnect_delay_and_cap (s : TunnelState) :
    (s.reconnectAttempts < maxReconnectAttempts →
       scheduleReconnectCore s =
         ({ s with reconnectAttempts := s.reconnectAttempts + 1 },
          some (min (baseReconnectDelay * (3 / 2 : ℚ) ^ s.reconnectAttempts) 60000))) ∧
    (s.reconnectAttempts = 0 → (scheduleReconnectCore s).2 = some 3000) ∧
    (s.reconnectAttempts = 3 → (scheduleReconnectCore s).2 = some 10125) ∧
    (maxReconnectAttempts ≤ s.reconnectAttempts →
       (scheduleReconnectCore s).1.status = .error ∧ (scheduleReconnectCore s).2 = none ∧
       ∀ (w : World) (sid : Nat), alookup sid w.heap = some s →
         (scheduleReconnectW sid w).pending = w.pending ∧
         (alookup sid (scheduleReconnectW sid w).heap).map TunnelState.status = some .error) := by
  refine ⟨?_, ?_, ?_, ?_⟩
  · intro h
    unfold scheduleReconnectCore
    rw [if_neg (by omega)]
    simp
  · intro h
    unfold scheduleReconnectCore
    rw [if_neg (by simp [h, maxReconnectAttempts])]
    simp only [h]
    norm_num [baseReconnectDelay]
  · intro h
    unfold scheduleReconnectCore
    rw [if_neg (by simp [h, maxReconnectAttempts])]
    simp only [h]
    norm_num [baseReconnectDelay]
  · intro h
    have hcore : scheduleReconnectCore s =
        ({ s with status := .error, lastError := some "Max reconnect attempts reached" }, none) := by
      unfold scheduleReconnectCore
      rw [if_pos h]
    refine ⟨by rw [hcore], by rw [hcore], ?_⟩
    intro w sid hlook
    unfold scheduleReconnectW
    simp only [hlook, hcore]
    refine ⟨by trivial, ?_⟩
    show (alookup sid (aset sid _ w.heap)).map TunnelState.status = some .error
    rw [alookup_aset_self, hlook]
    rfl

def stateFresh : TunnelState :=
  { config := { host := "a@h" }, process := none, status := .error, reconnectAttempts := 0 }

def stateAtCap : TunnelState :=
  { config := { host := "a@h" }, process := none, status := .disconnected,
    reconnectAttempts := 10 }

/-- Witness for C2's amended theorem: first-attempt delay 3000 at a concrete
state, and terminal no-timer behaviour at counter 10. -/
theorem scheduleReconnect_delay_and_cap_witness :
    (scheduleReconnectCore stateFresh).2 = some 3000 ∧
    (scheduleReconnectCore stateAtCap).2 = none :=
  ⟨(scheduleReconnect_delay_and_cap stateFresh).2.1 rfl,
   ((scheduleReconnect_delay_and_cap stateAtCap).2.2.2 (by decide)).2.1⟩

def cfgBackoff : TunnelConfig := { host := "b@h" }

def tenFailures : List Ev :=
  [.apiStart cfgBackoff (.errSpawn "x"), .fireErr 0 "x"] ++
  (List.replicate 9 [Ev.fireRecon 0 (.errSpawn "x"), Ev.fireErr 0 "x"]).flatten

/-- C2 counterexample: an execution in which the attempt counter reaches
maxReconnectAttempts (10), yet afterwards the 10th (already scheduled)
attempt succeeds, the status becomes connected — not terminal error — and a
later subprocess death schedules an 11th reconnect timer for the tunnel. -/
theorem counter_at_max_not_terminal :
    ¬ (∀ (evs1 evs2 : List Ev) (sid : Nat),
        (alookup sid (run init evs1).heap).map TunnelState.reconnectAttempts =
          some maxReconnectAttempts →
        (alookup sid (run (run init evs1) evs2).heap).map TunnelState.status =
          some TStatus.error ∧
        schedCount sid (run (run init evs1) evs2) = schedCount sid (run init evs1)) := by
  intro hcl
  have := hcl tenFailures [.fireRecon 0 .ok, .fireConfirm 0, .procDies 0] 0 (by decide)
  revert this
  decide

end Tunnel

namespace Tunnel

theorem cnt_erase1_mem {α : Type} [DecidableEq α] {p : α → Bool} {x : α} {l : List α}
    (hm : x ∈ l) (h : p x = true) : cnt p (erase1 x l) + 1 = cnt p l := by
  induction l with
  | nil => cases hm
  | cons y t ih =>
      rw [erase1_cons]
      by_cases hyx : y = x
      · subst hyx
        rw [if_pos rfl, cnt_cons, h, if_pos rfl]
        omega
      · have hmt : x ∈ t := by
          rcases List.mem_cons.mp hm with h1 | h1
          · exact absurd h1.symm hyx
          · exact h1
        rw [if_neg hyx, cnt_cons, cnt_cons]
        have := ih hmt
        omega

theorem exists_of_cnt_pos {α : Type} {p : α → Bool} {l : List α} (h : 0 < cnt p l) :
    ∃ x ∈ l, p x = true := by
  induction l with
  | nil => simp [cnt] at h
  | cons y t ih =>
      rw [cnt_cons] at h
      by_cases hp : p y
      · exact ⟨y, by simp, hp⟩
      · rw [if_neg hp] at h
        obtain ⟨x, hx1, hx2⟩ := ih (by omega)
        exact ⟨x, by simp [hx1], hx2⟩

theorem mem_erase1_sub {α : Type} [DecidableEq α] {x y : α} {l : List α}
    (h : y ∈ erase1 x l) : y ∈ l := by
  induction l with
  | nil => cases h
  | cons z t ih =>
      rw [erase1_cons] at h
      by_cases hzx : z = x
      · rw [if_pos hzx] at h
        exact List.mem_cons.mpr (Or.inr h)
      · rw [if_neg hzx] at h
        rcases List.mem_cons.mp h with h1 | h1
        · exact List.mem_cons.mpr (Or.inl h1)
        · exact List.mem_cons.mpr (Or.inr (ih h1))

theorem alookup_append {α β : Type} [DecidableEq α] (k : α) (l l' : List (α × β)) :
    alookup k (l ++ l') =
      match alookup k l with
      | some v => some v
      | none => alookup k l' := by
  induction l with
  | nil => rfl
  | cons p t ih =>
      rcases p with ⟨k', v'⟩
      by_cases h : k' = k
      · simp [alookup_cons, h]
      · simp only [List.cons_append, alookup_cons, if_neg h]
        exact ih

theorem alookup_aremove_ne {α β : Type} [DecidableEq α] {k k' : α} (l : List (α × β))
    (h : k' ≠ k) : alookup k' (aremove k l) = alookup k' l := by
  induction l with
  | nil => rfl
  | cons p t ih =>
      rcases p with ⟨k'', v''⟩
      by_cases hk : k'' = k
      · subst hk
        have h1 : ¬ k'' = k' := fun hh => h hh.symm
        simp [aremove_cons, alookup_cons, h1, ih]
      · simp [aremove_cons, alookup_cons, hk, ih]

theorem isSome_aset {α β : Type} [DecidableEq α] (k k' : α) (v : β) (l : List (α × β)) :
    (alookup k' (aset k v l)).isSome = (alookup k' l).isSome := by
  by_cases h : k' = k
  · subst h
    rw [alookup_aset_self]
    cases alookup k' l <;> rfl
  · rw [alookup_aset_ne _ _ h]

/-! ### The quiet-state argument

After `stopTunnel` has cancelled the pending reconnect timer of a state that
owns no running subprocess, nothing in the world can ever call `connect` or
`scheduleReconnect` for that state again. -/

/-- The state `sid` is dormant: no running subprocess, no pending reconnect
timer, no pending spawn-error event, and no yet-to-be-allocated state can
alias it. -/
def Quiet (w : World) (sid : Nat) : Prop :=
  aliveAt w sid = false ∧ reconCount sid w = 0 ∧ errCount sid w = 0 ∧ sid < w.nextSid

theorem procDies_quiet_noop {w : World} {sid : Nat} (h : aliveAt w sid = false) :
    step w (.procDies sid) = w := by
  unfold step
  unfold aliveAt at h
  rcases hl : alookup sid w.heap with _ | s
  · simp [hl]
  · rw [hl] at h
    simp only [hl]
    rcases hp : s.process with _ | ph
    · simp [hp]
    · simp only [hp] at h ⊢
      rw [if_neg (by simp [h])]

theorem fireRecon_quiet_noop {w : World} {sid : Nat} (res : SpawnRes)
    (h : reconCount sid w = 0) :
    step w (.fireRecon sid res) = w := by
  have hnm : PendingEv.reconTimer sid ∉ w.pending := not_mem_of_cnt_zero h
  show (if PendingEv.reconTimer sid ∈ w.pending then _ else w) = w
  rw [if_neg hnm]

theorem fireErr_quiet_noop {w : World} {sid : Nat} (msg : String)
    (h : errCount sid w = 0) :
    step w (.fireErr sid msg) = w := by
  have hnm : PendingEv.errEv sid msg ∉ w.pending := by
    intro hm
    have := cnt_pos_of_mem (p := errPred sid) hm (by simp [errPred])
    unfold errCount at h
    omega
  show (if PendingEv.errEv sid msg ∈ w.pending then _ else w) = w
  rw [if_neg hnm]

end Tunnel

namespace Tunnel

theorem cnt_singleton {α : Type} (p : α → Bool) (x : α) :
    cnt p [x] = if p x then 1 else 0 := by
  rw [cnt_cons, cnt_nil, Nat.add_zero]

/-- The observables of state `sid` that the quiet argument tracks. -/
def obsEq (w' w : World) (sid : Nat) : Prop :=
  aliveAt w' sid = aliveAt w sid ∧ reconCount sid w' = reconCount sid w ∧
  errCount sid w' = errCount sid w ∧ connCount sid w' = connCount sid w

theorem obsEq_refl (w : World) (sid : Nat) : obsEq w w sid := ⟨rfl, rfl, rfl, rfl⟩

theorem obsEq_trans {w1 w2 w3 : World} {sid : Nat} (h12 : obsEq w1 w2 sid)
    (h23 : obsEq w2 w3 sid) : obsEq w1 w3 sid :=
  ⟨h12.1.trans h23.1, h12.2.1.trans h23.2.1, h12.2.2.1.trans h23.2.2.1,
   h12.2.2.2.trans h23.2.2.2⟩

theorem quiet_of_obsEq {w w' : World} {sid : Nat} (hq : Quiet w sid)
    (h : obsEq w' w sid) (hn : w.nextSid ≤ w'.nextSid) : Quiet w' sid :=
  ⟨h.1.trans hq.1, h.2.1.trans hq.2.1, h.2.2.1.trans hq.2.2.1,
   Nat.lt_of_lt_of_le hq.2.2.2 hn⟩

theorem scheduleReconnectW_untouched {w : World} {sid sid0 : Nat} (hne : sid0 ≠ sid) :
    obsEq (scheduleReconnectW sid0 w) w sid ∧
      (scheduleReconnectW sid0 w).nextSid = w.nextSid := by
  have hia : ∀ (h' : List (Nat × TunnelState)) (s' : TunnelState),
      alookup sid (aset sid0 s' h') = alookup sid h' :=
    fun h' s' => alookup_aset_ne s' h' (Ne.symm hne)
  unfold scheduleReconnectW
  rcases hl : alookup sid0 w.heap with _ | s
  · simp only [hl]
    exact ⟨obsEq_refl w sid, trivial⟩
  · simp only [hl]
    rcases hc : scheduleReconnectCore s with ⟨s', d⟩
    rcases d with _ | delay
    · simp only [hc]
      refine ⟨⟨?_, rfl, rfl, rfl⟩, trivial⟩
      show (match alookup sid (aset sid0 s' w.heap) with
            | some s => match s.process with | some h => h.alive | none => false
            | none => false) = aliveAt w sid
      rw [hia]
      rfl
    · simp only [hc]
      refine ⟨⟨?_, ?_, ?_, rfl⟩, trivial⟩
      · show (match alookup sid (aset sid0 s' w.heap) with
              | some s => match s.process with | some h => h.alive | none => false
              | none => false) = aliveAt w sid
        rw [hia]
        rfl
      · show cnt (fun e => e = PendingEv.reconTimer sid)
            (w.pending ++ [PendingEv.reconTimer sid0]) =
          cnt (fun e => e = PendingEv.reconTimer sid) w.pending
        rw [cnt_append, cnt_singleton]
        simp [hne]
      · show cnt (errPred sid) (w.pending ++ [PendingEv.reconTimer sid0]) =
          cnt (errPred sid) w.pending
        rw [cnt_append, cnt_singleton]
        simp [errPred]

theorem connect_untouched {w : World} {sid sid0 : Nat} (hne : sid0 ≠ sid) (res : SpawnRes) :
    obsEq (connect sid0 res w) w sid ∧ (connect sid0 res w).nextSid = w.nextSid := by
  have hia : ∀ (h' : List (Nat × TunnelState)) (s' : TunnelState),
      alookup sid (aset sid0 s' h') = alookup sid h' :=
    fun h' s' => alookup_aset_ne s' h' (Ne.symm hne)
  unfold connect
  rcases hl : alookup sid0 w.heap with _ | s
  · simp only [hl]
    exact ⟨obsEq_refl w sid, trivial⟩
  · simp only [hl]
    rcases res with _ | msg
    · refine ⟨⟨?_, ?_, ?_, ?_⟩, rfl⟩
      · show (match alookup sid (aset sid0 _ w.heap) with
              | some s => match s.process with | some h => h.alive | none => false
              | none => false) = aliveAt w sid
        rw [hia]
        rfl
      · show cnt (fun e => e = PendingEv.reconTimer sid)
            (w.pending ++ [PendingEv.confirmTimer sid0]) =
          cnt (fun e => e = PendingEv.reconTimer sid) w.pending
        rw [cnt_append, cnt_singleton]
        simp
      · show cnt (errPred sid) (w.pending ++ [PendingEv.confirmTimer sid0]) =
          cnt (errPred sid) w.pending
        rw [cnt_append, cnt_singleton]
        simp [errPred]
      · show cnt (fun x => x = sid) (w.connLog ++ [sid0]) = cnt (fun x => x = sid) w.connLog
        rw [cnt_append, cnt_singleton]
        simp [hne]
    · refine ⟨⟨?_, ?_, ?_, ?_⟩, rfl⟩
      · show (match alookup sid (aset sid0 _ w.heap) with
              | some s => match s.process with | some h => h.alive | none => false
              | none => false) = aliveAt w sid
        rw [hia]
        rfl
      · show cnt (fun e => e = PendingEv.reconTimer sid)
            (w.pending ++ [PendingEv.errEv sid0 msg]) =
          cnt (fun e => e = PendingEv.reconTimer sid) w.pending
        rw [cnt_append, cnt_singleton]
        simp
      · show cnt (errPred sid) (w.pending ++ [PendingEv.errEv sid0 msg]) =
          cnt (errPred sid) w.pending
        rw [cnt_append, cnt_singleton]
        simp [errPred, hne]
      · show cnt (fun x => x = sid) (w.connLog ++ [sid0]) = cnt (fun x => x = sid) w.connLog
        rw [cnt_append, cnt_singleton]
        simp [hne]

end Tunnel

namespace Tunnel

theorem killProc_alive (s : TunnelState) :
    (match (killProc s).process with | some h => h.alive | none => false) =
    (match s.process with | some h => h.alive | none => false) := by
  unfold killProc
  rcases hp : s.process with _ | h
  · simp [hp]
  · by_cases ha : h.alive
    · simp [hp, ha]
    · simp [hp, ha]

theorem stopTunnelW_nextSid (key : String) (w : World) :
    (stopTunnelW key w).nextSid = w.nextSid := by
  unfold stopTunnelW
  rcases h1 : alookup key w.tmap with _ | sid1
  · simp only [h1]
  · simp only [h1]
    rcases h2 : alookup sid1 w.heap with _ | s
    · simp only [h2]
    · simp only [h2]

theorem obsEq_erase_pending {w : World} {sid : Nat} {x : PendingEv}
    (h1 : decide (x = PendingEv.reconTimer sid) = false)
    (h2 : errPred sid x = false) :
    obsEq { w with pending := erase1 x w.pending } w sid := by
  refine ⟨rfl, ?_, ?_, rfl⟩
  · exact cnt_erase1_not (p := fun e => decide (e = PendingEv.reconTimer sid)) h1 w.pending
  · exact cnt_erase1_not (p := errPred sid) h2 w.pending

theorem obsEq_aset_ne {w : World} {sid sid0 : Nat} (s' : TunnelState) (hne : sid0 ≠ sid) :
    obsEq { w with heap := aset sid0 s' w.heap } w sid := by
  refine ⟨?_, rfl, rfl, rfl⟩
  show (match alookup sid (aset sid0 s' w.heap) with
        | some s => match s.process with | some h => h.alive | none => false
        | none => false) = aliveAt w sid
  rw [alookup_aset_ne s' w.heap (Ne.symm hne)]
  rfl

theorem obsEq_aset_same_process {w : World} {sid0 : Nat} {s s' : TunnelState} (sid : Nat)
    (hl : alookup sid0 w.heap = some s) (hsp : s'.process = s.process) :
    obsEq { w with heap := aset sid0 s' w.heap } w sid := by
  by_cases h0 : sid0 = sid
  · subst h0
    refine ⟨?_, rfl, rfl, rfl⟩
    show (match alookup sid0 (aset sid0 s' w.heap) with
          | some s => match s.process with | some h => h.alive | none => false
          | none => false) = aliveAt w sid0
    rw [alookup_aset_self, hl]
    show (match s'.process with | some h => h.alive | none => false) = aliveAt w sid0
    rw [hsp]
    unfold aliveAt
    rw [hl]
  · exact obsEq_aset_ne s' h0

theorem stopTunnelW_quiet {w : World} {sid : Nat} (hq : Quiet w sid) (key : String) :
    Quiet (stopTunnelW key w) sid ∧ connCount sid (stopTunnelW key w) = connCount sid w := by
  obtain ⟨ha, hr, he, hn⟩ := hq
  unfold stopTunnelW
  rcases h1 : alookup key w.tmap with _ | sid1
  · simp only [h1]
    exact ⟨⟨ha, hr, he, hn⟩, trivial⟩
  · simp only [h1]
    rcases h2 : alookup sid1 w.heap with _ | s
    · simp only [h2]
      exact ⟨⟨ha, hr, he, hn⟩, trivial⟩
    · simp only [h2]
      refine ⟨⟨?_, ?_, ?_, hn⟩, rfl⟩
      · by_cases hcase : sid1 = sid
        · subst hcase
          show (match alookup sid1 (aset sid1 (killProc s) w.heap) with
                | some s => match s.process with | some h => h.alive | none => false
                | none => false) = false
          rw [alookup_aset_self, h2]
          show (match (killProc s).process with | some h => h.alive | none => false) = false
          rw [killProc_alive]
          unfold aliveAt at ha
          rw [h2] at ha
          exact ha
        · show (match alookup sid (aset sid1 (killProc s) w.heap) with
                | some s => match s.process with | some h => h.alive | none => false
                | none => false) = false
          rw [alookup_aset_ne _ _ (fun hh => hcase hh.symm)]
          exact ha
      · have hle := cnt_filter_le (fun e => e = PendingEv.reconTimer sid)
          (fun e => e ≠ PendingEv.reconTimer sid1) w.pending
        unfold reconCount at hr
        show cnt (fun e => e = PendingEv.reconTimer sid)
          (w.pending.filter fun e => e ≠ PendingEv.reconTimer sid1) = 0
        omega
      · have hle := cnt_filter_le (errPred sid)
          (fun e => e ≠ PendingEv.reconTimer sid1) w.pending
        unfold errCount at he
        show cnt (errPred sid)
          (w.pending.filter fun e => e ≠ PendingEv.reconTimer sid1) = 0
        omega

end Tunnel

namespace Tunnel

/-! ### One-step unfolding equations for `step` -/

theorem step_apiStart (w : World) (c : TunnelConfig) (res : SpawnRes) :
    step w (.apiStart c res) = startTunnelW c res w := rfl

theorem step_apiStop (w : World) (key : String) :
    step w (.apiStop key) = stopTunnelW key w := rfl

theorem step_procDies (w : World) (sid0 : Nat) :
    step w (.procDies sid0) =
      (match alookup sid0 w.heap with
       | some s =>
           match s.process with
           | some h => if h.alive then exitHandler sid0 w else w
           | none => w
       | none => w) := rfl

theorem step_fireRecon (w : World) (sid0 : Nat) (res : SpawnRes) :
    step w (.fireRecon sid0 res) =
      (if PendingEv.reconTimer sid0 ∈ w.pending then
         let w1 : World := { w with pending := erase1 (.reconTimer sid0) w.pending }
         match alookup sid0 w1.heap with
         | none => w1
         | some s => connect sid0 res
             { w1 with heap := aset sid0 ({ s with status := .connecting }) w1.heap }
       else w) := rfl

theorem step_fireConfirm (w : World) (sid0 : Nat) :
    step w (.fireConfirm sid0) =
      (if PendingEv.confirmTimer sid0 ∈ w.pending then
         let w1 : World := { w with pending := erase1 (.confirmTimer sid0) w.pending }
         match alookup sid0 w1.heap with
         | none => w1
         | some s =>
             match s.process with
             | some h =>
                 if h.killed then w1
                 else { w1 with heap := aset sid0 ({ s with status := .connected, reconnectAttempts := 0 }) w1.heap }
             | none => w1
       else w) := rfl

theorem step_fireErr (w : World) (sid0 : Nat) (msg : String) :
    step w (.fireErr sid0 msg) =
      (if PendingEv.errEv sid0 msg ∈ w.pending then
         let w1 : World := { w with pending := erase1 (.errEv sid0 msg) w.pending }
         match alookup sid0 w1.heap with
         | none => w1
         | some s => scheduleReconnectW sid0
             { w1 with heap := aset sid0 ({ s with status := .error, lastError := some msg }) w1.heap }
       else w) := rfl

theorem startTunnelW_quiet {w : World} {sid : Nat} (hq : Quiet w sid) (c : TunnelConfig)
    (res : SpawnRes) :
    Quiet (startTunnelW c res w) sid ∧
      connCount sid (startTunnelW c res w) = connCount sid w := by
  obtain ⟨hq1, hc1⟩ := stopTunnelW_quiet hq (getTunnelKey c)
  obtain ⟨ha1, hr1, he1, hn1⟩ := hq1
  have hne : (stopTunnelW (getTunnelKey c) w).nextSid ≠ sid := by omega
  have hq2 : Quiet { stopTunnelW (getTunnelKey c) w with
      heap := ((stopTunnelW (getTunnelKey c) w).nextSid, newState c) ::
        (stopTunnelW (getTunnelKey c) w).heap
    , tmap := (stopTunnelW (getTunnelKey c) w).tmap ++
        [(getTunnelKey c, (stopTunnelW (getTunnelKey c) w).nextSid)]
    , nextSid := (stopTunnelW (getTunnelKey c) w).nextSid + 1 } sid := by
    refine ⟨?halive, hr1, he1, ?hbound⟩
    case hbound =>
      show sid < (stopTunnelW (getTunnelKey c) w).nextSid + 1
      omega
    case halive =>
      show (match alookup sid (((stopTunnelW (getTunnelKey c) w).nextSid, newState c) ::
            (stopTunnelW (getTunnelKey c) w).heap) with
            | some s => match s.process with | some h => h.alive | none => false
            | none => false) = false
      rw [alookup_cons, if_neg hne]
      exact ha1
  obtain ⟨hobs3, hnext3⟩ := connect_untouched
    (w := { stopTunnelW (getTunnelKey c) w with
      heap := ((stopTunnelW (getTunnelKey c) w).nextSid, newState c) ::
        (stopTunnelW (getTunnelKey c) w).heap
    , tmap := (stopTunnelW (getTunnelKey c) w).tmap ++
        [(getTunnelKey c, (stopTunnelW (getTunnelKey c) w).nextSid)]
    , nextSid := (stopTunnelW (getTunnelKey c) w).nextSid + 1 })
    hne res
  constructor
  · exact quiet_of_obsEq hq2 hobs3 (le_of_eq hnext3.symm)
  · exact hobs3.2.2.2.trans hc1

theorem procDies_quiet {w : World} {sid : Nat} (hq : Quiet w sid) (sid0 : Nat) :
    Quiet (step w (.procDies sid0)) sid ∧
      connCount sid (step w (.procDies sid0)) = connCount sid w := by
  by_cases h0 : sid0 = sid
  · subst h0
    rw [procDies_quiet_noop hq.1]
    exact ⟨hq, rfl⟩
  · rw [step_procDies]
    rcases hl : alookup sid0 w.heap with _ | s
    · simp only [hl]
      exact ⟨hq, trivial⟩
    · simp only [hl]
      rcases hp : s.process with _ | ph
      · simp only [hp]
        exact ⟨hq, trivial⟩
      · simp only [hp]
        by_cases hal : ph.alive
        · rw [if_pos hal]
          unfold exitHandler
          simp only [hl]
          have hob1 : obsEq { w with heap := aset sid0 ({ s with process := none, status := if s.status = .connected then .disconnected else s.status }) w.heap } w sid :=
            obsEq_aset_ne _ h0
          obtain ⟨hob2, hnx2⟩ := scheduleReconnectW_untouched
            (w := { w with heap := aset sid0 ({ s with process := none, status := if s.status = .connected then .disconnected else s.status }) w.heap })
            h0
          have hob := obsEq_trans hob2 hob1
          exact ⟨quiet_of_obsEq hq hob (le_of_eq hnx2.symm), hob.2.2.2⟩
        · rw [if_neg hal]
          exact ⟨hq, rfl⟩

theorem fireRecon_quiet {w : World} {sid : Nat} (hq : Quiet w sid) (sid0 : Nat)
    (res : SpawnRes) :
    Quiet (step w (.fireRecon sid0 res)) sid ∧
      connCount sid (step w (.fireRecon sid0 res)) = connCount sid w := by
  by_cases h0 : sid0 = sid
  · subst h0
    rw [fireRecon_quiet_noop res hq.2.1]
    exact ⟨hq, rfl⟩
  · rw [step_fireRecon]
    by_cases hmem : PendingEv.reconTimer sid0 ∈ w.pending
    · rw [if_pos hmem]
      have hob1 : obsEq { w with pending := erase1 (.reconTimer sid0) w.pending } w sid :=
        obsEq_erase_pending (by simp [h0]) (by simp [errPred])
      show Quiet (match alookup sid0 w.heap with
        | none => { w with pending := erase1 (.reconTimer sid0) w.pending }
        | some s => connect sid0 res
            { w with pending := erase1 (.reconTimer sid0) w.pending, heap := aset sid0 ({ s with status := .connecting }) w.heap }) sid ∧ _
      rcases hl : alookup sid0 w.heap with _ | s
      · simp only [hl]
        exact ⟨quiet_of_obsEq hq hob1 (le_refl _), hob1.2.2.2⟩
      · simp only [hl]
        have hob2 : obsEq
            { w with pending := erase1 (.reconTimer sid0) w.pending, heap := aset sid0 ({ s with status := .connecting }) w.heap }
            { w with pending := erase1 (.reconTimer sid0) w.pending } sid :=
          obsEq_aset_ne (w := { w with pending := erase1 (.reconTimer sid0) w.pending })
            _ h0
        obtain ⟨hob3, hnx3⟩ := connect_untouched
          (w := { w with pending := erase1 (.reconTimer sid0) w.pending, heap := aset sid0 ({ s with status := .connecting }) w.heap })
          h0 res
        have hob := obsEq_trans hob3 (obsEq_trans hob2 hob1)
        exact ⟨quiet_of_obsEq hq hob (le_of_eq hnx3.symm), hob.2.2.2⟩
    · rw [if_neg hmem]
      exact ⟨hq, rfl⟩

theorem fireConfirm_quiet {w : World} {sid : Nat} (hq : Quiet w sid) (sid0 : Nat) :
    Quiet (step w (.fireConfirm sid0)) sid ∧
      connCount sid (step w (.fireConfirm sid0)) = connCount sid w := by
  rw [step_fireConfirm]
  by_cases hmem : PendingEv.confirmTimer sid0 ∈ w.pending
  · rw [if_pos hmem]
    have hob1 : obsEq { w with pending := erase1 (.confirmTimer sid0) w.pending } w sid :=
      obsEq_erase_pending (by simp) (by simp [errPred])
    show Quiet (match alookup sid0 w.heap with
      | none => { w with pending := erase1 (.confirmTimer sid0) w.pending }
      | some s =>
          match s.process with
          | some h =>
              if h.killed then { w with pending := erase1 (.confirmTimer sid0) w.pending }
              else { w with pending := erase1 (.confirmTimer sid0) w.pending, heap := aset sid0 ({ s with status := .connected, reconnectAttempts := 0 }) w.heap }
          | none => { w with pending := erase1 (.confirmTimer sid0) w.pending }) sid ∧ _
    rcases hl : alookup sid0 w.heap with _ | s
    · simp only [hl]
      exact ⟨quiet_of_obsEq hq hob1 (le_refl _), hob1.2.2.2⟩
    · simp only [hl]
      rcases hp : s.process with _ | ph
      · simp only [hp]
        exact ⟨quiet_of_obsEq hq hob1 (le_refl _), hob1.2.2.2⟩
      · simp only [hp]
        by_cases hk : ph.killed
        · rw [if_pos hk]
          exact ⟨quiet_of_obsEq hq hob1 (le_refl _), hob1.2.2.2⟩
        · rw [if_neg hk]
          have hl1 : alookup sid0
              ({ w with pending := erase1 (.confirmTimer sid0) w.pending } : World).heap =
              some s := hl
          have hsp2 : ({ s with process := some ph, status := .connected, reconnectAttempts := 0 } : TunnelState).process = s.process := hp.symm
          have hob2 := obsEq_aset_same_process sid hl1 hsp2
          have hob := obsEq_trans hob2 hob1
          exact ⟨quiet_of_obsEq hq hob (le_refl _), hob.2.2.2⟩
  · rw [if_neg hmem]
    exact ⟨hq, rfl⟩

theorem fireErr_quiet {w : World} {sid : Nat} (hq : Quiet w sid) (sid0 : Nat) (msg : String) :
    Quiet (step w (.fireErr sid0 msg)) sid ∧
      connCount sid (step w (.fireErr sid0 msg)) = connCount sid w := by
  by_cases h0 : sid0 = sid
  · subst h0
    rw [fireErr_quiet_noop msg hq.2.2.1]
    exact ⟨hq, rfl⟩
  · rw [step_fireErr]
    by_cases hmem : PendingEv.errEv sid0 msg ∈ w.pending
    · rw [if_pos hmem]
      have hob1 : obsEq { w with pending := erase1 (.errEv sid0 msg) w.pending } w sid :=
        obsEq_erase_pending (by simp) (by simp [errPred, h0])
      show Quiet (match alookup sid0 w.heap with
        | none => { w with pending := erase1 (.errEv sid0 msg) w.pending }
        | some s => scheduleReconnectW sid0
            { w with pending := erase1 (.errEv sid0 msg) w.pending, heap := aset sid0 ({ s with status := .error, lastError := some msg }) w.heap }) sid ∧ _
      rcases hl : alookup sid0 w.heap with _ | s
      · simp only [hl]
        exact ⟨quiet_of_obsEq hq hob1 (le_refl _), hob1.2.2.2⟩
      · simp only [hl]
        have hob2 : obsEq
            { w with pending := erase1 (.errEv sid0 msg) w.pending, heap := aset sid0 ({ s with status := .error, lastError := some msg }) w.heap }
            { w with pending := erase1 (.errEv sid0 msg) w.pending } sid :=
          obsEq_aset_ne (w := { w with pending := erase1 (.errEv sid0 msg) w.pending }) _ h0
        obtain ⟨hob3, hnx3⟩ := scheduleReconnectW_untouched
          (w := { w with pending := erase1 (.errEv sid0 msg) w.pending, heap := aset sid0 ({ s with status := .error, lastError := some msg }) w.heap })
          h0
        have hob := obsEq_trans hob3 (obsEq_trans hob2 hob1)
        exact ⟨quiet_of_obsEq hq hob (le_of_eq hnx3.symm), hob.2.2.2⟩
    · rw [if_neg hmem]
      exact ⟨hq, rfl⟩

/-- A dormant state stays dormant and is never connected again, whatever the
event loop does next. -/
theorem quiet_step {w : World} {sid : Nat} (hq : Quiet w sid) (e : Ev) :
    Quiet (step w e) sid ∧ connCount sid (step w e) = connCount sid w := by
  cases e with
  | apiStart c res => exact startTunnelW_quiet hq c res
  | apiStop key => exact stopTunnelW_quiet hq key
  | procDies sid0 => exact procDies_quiet hq sid0
  | fireRecon sid0 res => exact fireRecon_quiet hq sid0 res
  | fireConfirm sid0 => exact fireConfirm_quiet hq sid0
  | fireErr sid0 msg => exact fireErr_quiet hq sid0 msg

theorem quiet_run {w : World} {sid : Nat} (hq : Quiet w sid) (evs : List Ev) :
    Quiet (run w evs) sid ∧ connCount sid (run w evs) = connCount sid w := by
  induction evs generalizing w with
  | nil => exact ⟨hq, rfl⟩
  | cons e t ih =>
      obtain ⟨hq1, hc1⟩ := quiet_step hq e
      obtain ⟨hq2, hc2⟩ := ih hq1
      exact ⟨hq2, hc2.trans hc1⟩

end Tunnel

namespace Tunnel

/-! ### The per-state phase invariant

A reachable supervisor world never has, for one state, more than one of a
running subprocess, a pending reconnect timer and a pending spawn-error
event: each tunnel state is always in exactly one of its lifecycle phases. -/

/-- Number of phase tokens held by `sid`: pending reconnect timers plus
pending spawn-error events plus one if its subprocess is running. -/
def phaseCount (w : World) (sid : Nat) : Nat :=
  reconCount sid w + errCount sid w + (if aliveAt w sid then 1 else 0)

/-- Invariant of reachable worlds: at most one phase token per state, heap
ids and pending-event ids below the allocation counter, and the tunnel map
pointing into the heap. -/
def Inv (w : World) : Prop :=
  (∀ sid, phaseCount w sid ≤ 1) ∧
  (∀ sid, (alookup sid w.heap).isSome = true → sid < w.nextSid) ∧
  (∀ e ∈ w.pending, PendingEv.sid e < w.nextSid) ∧
  (∀ key sid, alookup key w.tmap = some sid → (alookup sid w.heap).isSome = true)

theorem aliveAt_of_none {w : World} {sid : Nat} (h : alookup sid w.heap = none) :
    aliveAt w sid = false := by
  unfold aliveAt
  rw [h]

theorem aliveAt_of_some {w : World} {sid : Nat} {s : TunnelState}
    (h : alookup sid w.heap = some s) :
    aliveAt w sid = (match s.process with | some hp => hp.alive | none => false) := by
  unfold aliveAt
  rw [h]

theorem reconCount_zero_of_bound {w : World} {sid : Nat}
    (hC : ∀ e ∈ w.pending, PendingEv.sid e < w.nextSid) (h : w.nextSid ≤ sid) :
    reconCount sid w = 0 := by
  by_contra hne
  obtain ⟨x, hx1, hx2⟩ := exists_of_cnt_pos (Nat.pos_of_ne_zero hne)
  have hx3 : x = PendingEv.reconTimer sid := by simpa using hx2
  have := hC x hx1
  rw [hx3] at this
  have : sid < w.nextSid := this
  omega

theorem errCount_zero_of_bound {w : World} {sid : Nat}
    (hC : ∀ e ∈ w.pending, PendingEv.sid e < w.nextSid) (h : w.nextSid ≤ sid) :
    errCount sid w = 0 := by
  by_contra hne
  obtain ⟨x, hx1, hx2⟩ := exists_of_cnt_pos (Nat.pos_of_ne_zero hne)
  rcases x with s1 | s1 | ⟨s1, m1⟩ <;> simp [errPred] at hx2
  have h2 : s1 < w.nextSid := hC _ hx1
  omega

theorem phase_of_alive {w : World} {sid : Nat} (hall : phaseCount w sid ≤ 1)
    (ha : aliveAt w sid = true) : reconCount sid w = 0 ∧ errCount sid w = 0 := by
  unfold phaseCount at hall
  rw [ha] at hall
  simp at hall
  omega

theorem phase_of_recon {w : World} {sid : Nat} (hall : phaseCount w sid ≤ 1)
    (hr : 0 < reconCount sid w) :
    reconCount sid w = 1 ∧ errCount sid w = 0 ∧ aliveAt w sid = false := by
  unfold phaseCount at hall
  cases hb : aliveAt w sid with
  | false =>
      rw [hb] at hall
      simp at hall
      exact ⟨by omega, by omega, rfl⟩
  | true =>
      rw [hb] at hall
      simp at hall
      exfalso
      omega

theorem phase_of_err {w : World} {sid : Nat} (hall : phaseCount w sid ≤ 1)
    (he : 0 < errCount sid w) :
    errCount sid w = 1 ∧ reconCount sid w = 0 ∧ aliveAt w sid = false := by
  unfold phaseCount at hall
  cases hb : aliveAt w sid with
  | false =>
      rw [hb] at hall
      simp at hall
      exact ⟨by omega, by omega, rfl⟩
  | true =>
      rw [hb] at hall
      simp at hall
      exfalso
      omega

theorem recon_mem_of_pos {w : World} {sid : Nat} (hr : 0 < reconCount sid w) :
    PendingEv.reconTimer sid ∈ w.pending := by
  obtain ⟨x, hx1, hx2⟩ := exists_of_cnt_pos hr
  have : x = PendingEv.reconTimer sid := by simpa using hx2
  rwa [this] at hx1

theorem reconCount_pos_of_mem {w : World} {sid : Nat}
    (h : PendingEv.reconTimer sid ∈ w.pending) : 0 < reconCount sid w :=
  cnt_pos_of_mem (p := fun e => decide (e = PendingEv.reconTimer sid)) h (by simp)

theorem errCount_pos_of_mem {w : World} {sid : Nat} {msg : String}
    (h : PendingEv.errEv sid msg ∈ w.pending) : 0 < errCount sid w :=
  cnt_pos_of_mem (p := errPred sid) h (by simp [errPred])

end Tunnel

namespace Tunnel

theorem phase_le_of_parts {w' w : World} {sid : Nat}
    (hr : reconCount sid w' ≤ reconCount sid w)
    (he : errCount sid w' ≤ errCount sid w)
    (ha : aliveAt w' sid = aliveAt w sid)
    (h1 : phaseCount w sid ≤ 1) : phaseCount w' sid ≤ 1 := by
  unfold phaseCount at *
  rw [ha]
  omega

theorem inv_stopTunnelW {w : World} (hInv : Inv w) (key : String) :
    Inv (stopTunnelW key w) := by
  obtain ⟨hA, hB, hC, hD⟩ := hInv
  unfold stopTunnelW
  rcases h1 : alookup key w.tmap with _ | sid1
  · simp only [h1]
    exact ⟨hA, hB, hC, hD⟩
  · simp only [h1]
    rcases h2 : alookup sid1 w.heap with _ | s
    · simp only [h2]
      exact ⟨hA, hB, hC, hD⟩
    · simp only [h2]
      refine ⟨?_, ?_, ?_, ?_⟩
      · intro sid
        refine phase_le_of_parts ?_ ?_ ?_ (hA sid)
        · exact cnt_filter_le _ _ _
        · exact cnt_filter_le _ _ _
        · by_cases hcase : sid = sid1
          · subst hcase
            unfold aliveAt
            rw [alookup_aset_self, h2]
            show (match (killProc s).process with | some hp => hp.alive | none => false)
              = (match s.process with | some hp => hp.alive | none => false)
            exact killProc_alive s
          · unfold aliveAt
            rw [alookup_aset_ne _ _ hcase]
      · intro sid hs
        rw [isSome_aset] at hs
        exact hB sid hs
      · intro e he
        exact hC e (List.mem_filter.mp he).1
      · intro key' sid' hk
        by_cases hkk : key' = key
        · subst hkk
          rw [alookup_aremove_self] at hk
          cases hk
        · rw [alookup_aremove_ne _ hkk] at hk
          rw [isSome_aset]
          exact hD key' sid' hk

end Tunnel

namespace Tunnel

theorem phase_zero_parts {w : World} {sid : Nat} (h : phaseCount w sid = 0) :
    reconCount sid w = 0 ∧ errCount sid w = 0 ∧ aliveAt w sid = false := by
  unfold phaseCount at h
  cases hb : aliveAt w sid with
  | false =>
      rw [hb] at h
      simp at h
      exact ⟨by omega, by omega, rfl⟩
  | true =>
      rw [hb] at h
      simp at h

theorem phase_le_one_alive {w' : World} {sid : Nat} (hr : reconCount sid w' = 0)
    (he : errCount sid w' = 0) : phaseCount w' sid ≤ 1 := by
  unfold phaseCount
  rw [hr, he]
  cases aliveAt w' sid <;> simp

theorem phase_le_one_dead {w' : World} {sid : Nat} (ha : aliveAt w' sid = false)
    (hr : reconCount sid w' = 0) (he : errCount sid w' ≤ 1) : phaseCount w' sid ≤ 1 := by
  unfold phaseCount
  rw [ha, hr]
  simp
  omega

theorem inv_connect {w : World} {sid0 : Nat} (res : SpawnRes)
    (hA : ∀ sid, phaseCount w sid ≤ 1)
    (hB : ∀ sid, (alookup sid w.heap).isSome = true → sid < w.nextSid)
    (hC : ∀ e ∈ w.pending, PendingEv.sid e < w.nextSid)
    (hD : ∀ key sid, alookup key w.tmap = some sid → (alookup sid w.heap).isSome = true)
    (h0r : reconCount sid0 w = 0) (h0e : errCount sid0 w = 0) :
    Inv (connect sid0 res w) := by
  rcases hl : alookup sid0 w.heap with _ | s
  · unfold connect
    simp only [hl]
    exact ⟨hA, hB, hC, hD⟩
  · have hs0 : sid0 < w.nextSid := hB sid0 (by rw [hl]; rfl)
    have hnx : (connect sid0 res w).nextSid = w.nextSid := by
      unfold connect
      simp only [hl]
      rcases res with _ | msg <;> rfl
    have hheap : ∀ sid, (alookup sid (connect sid0 res w).heap).isSome
        = (alookup sid w.heap).isSome := by
      intro sid
      unfold connect
      simp only [hl]
      rcases res with _ | msg <;> exact isSome_aset _ _ _ _
    have hpend : ∀ e ∈ (connect sid0 res w).pending, e ∈ w.pending ∨ PendingEv.sid e = sid0 := by
      intro e he
      unfold connect at he
      simp only [hl] at he
      rcases res with _ | msg
      · rcases List.mem_append.mp he with h | h
        · exact Or.inl h
        · simp at h
          rw [h]
          exact Or.inr rfl
      · rcases List.mem_append.mp he with h | h
        · exact Or.inl h
        · simp at h
          rw [h]
          exact Or.inr rfl
    have htm : (connect sid0 res w).tmap = w.tmap := by
      unfold connect
      simp only [hl]
      rcases res with _ | msg <;> rfl
    refine ⟨?_, ?_, ?_, ?_⟩
    · intro sid
      by_cases hcase : sid0 = sid
      · subst hcase
        rcases res with _ | msg
        · have hr' : reconCount sid0 (connect sid0 .ok w) = 0 := by
            unfold connect
            simp only [hl]
            show cnt (fun e => e = PendingEv.reconTimer sid0)
              (w.pending ++ [PendingEv.confirmTimer sid0]) = 0
            rw [cnt_append, cnt_singleton]
            simp
            exact h0r
          have he' : errCount sid0 (connect sid0 .ok w) = 0 := by
            unfold connect
            simp only [hl]
            show cnt (errPred sid0) (w.pending ++ [PendingEv.confirmTimer sid0]) = 0
            rw [cnt_append, cnt_singleton]
            simp [errPred]
            exact h0e
          exact phase_le_one_alive hr' he'
        · have hr' : reconCount sid0 (connect sid0 (.errSpawn msg) w) = 0 := by
            unfold connect
            simp only [hl]
            show cnt (fun e => e = PendingEv.reconTimer sid0)
              (w.pending ++ [PendingEv.errEv sid0 msg]) = 0
            rw [cnt_append, cnt_singleton]
            simp
            exact h0r
          have he' : errCount sid0 (connect sid0 (.errSpawn msg) w) ≤ 1 := by
            unfold connect
            simp only [hl]
            show cnt (errPred sid0) (w.pending ++ [PendingEv.errEv sid0 msg]) ≤ 1
            rw [cnt_append, cnt_singleton]
            simp [errPred]
            have h0e2 : cnt (errPred sid0) w.pending = 0 := h0e
            omega
          have ha' : aliveAt (connect sid0 (.errSpawn msg) w) sid0 = false := by
            unfold connect
            simp only [hl]
            show (match alookup sid0
                (aset sid0 ({ s with process := some { alive := false, killed := false } })
                  w.heap) with
              | some s1 => match s1.process with | some hp => hp.alive | none => false
              | none => false) = false
            rw [alookup_aset_self, hl]
            rfl
          exact phase_le_one_dead ha' hr' he'
      · obtain ⟨hob, _⟩ := connect_untouched (w := w) hcase res
        exact phase_le_of_parts (le_of_eq hob.2.1) (le_of_eq hob.2.2.1) hob.1 (hA sid)
    · intro sid hs
      rw [hheap sid] at hs
      rw [hnx]
      exact hB sid hs
    · intro e he
      rw [hnx]
      rcases hpend e he with h | h
      · exact hC e h
      · rw [h]
        exact hs0
    · intro key sid hk
      rw [htm] at hk
      rw [hheap sid]
      exact hD key sid hk

end Tunnel
namespace Tunnel

theorem phase_le_one_dead2 {w' : World} {sid : Nat} (ha : aliveAt w' sid = false)
    (hsum : reconCount sid w' + errCount sid w' ≤ 1) : phaseCount w' sid ≤ 1 := by
  unfold phaseCount
  rw [ha]
  simp
  omega

theorem inv_scheduleReconnectW {w : World} {sid0 : Nat}
    (hA : ∀ sid, phaseCount w sid ≤ 1)
    (hB : ∀ sid, (alookup sid w.heap).isSome = true → sid < w.nextSid)
    (hC : ∀ e ∈ w.pending, PendingEv.sid e < w.nextSid)
    (hD : ∀ key sid, alookup key w.tmap = some sid → (alookup sid w.heap).isSome = true)
    (h0r : reconCount sid0 w = 0) (h0e : errCount sid0 w = 0)
    (h0a : aliveAt w sid0 = false) :
    Inv (scheduleReconnectW sid0 w) := by
  rcases hl : alookup sid0 w.heap with _ | s
  · unfold scheduleReconnectW
    simp only [hl]
    exact ⟨hA, hB, hC, hD⟩
  · have hs0 : sid0 < w.nextSid := hB sid0 (by rw [hl]; rfl)
    have hproc : (scheduleReconnectCore s).1.process = s.process := by
      unfold scheduleReconnectCore
      by_cases hcap : s.reconnectAttempts ≥ maxReconnectAttempts
      · rw [if_pos hcap]
      · rw [if_neg hcap]
    rcases hcore : scheduleReconnectCore s with ⟨s', d⟩
    rw [hcore] at hproc
    have hproc2 : s'.process = s.process := hproc
    rcases d with _ | delay
    · have hup : scheduleReconnectW sid0 w = { w with heap := aset sid0 s' w.heap } := by
        unfold scheduleReconnectW
        simp only [hl, hcore]
      rw [hup]
      refine ⟨?_, ?_, ?_, ?_⟩
      · intro sid
        refine phase_le_of_parts ?_ ?_ ?_ (hA sid)
        · exact le_of_eq (obsEq_aset_same_process sid hl hproc2).2.1
        · exact le_of_eq (obsEq_aset_same_process sid hl hproc2).2.2.1
        · exact (obsEq_aset_same_process sid hl hproc2).1
      · intro sid hs
        have hs2 : (alookup sid (aset sid0 s' w.heap)).isSome = true := hs
        rw [isSome_aset] at hs2
        exact hB sid hs2
      · exact hC
      · intro key sid hk
        have hk2 : alookup key w.tmap = some sid := hk
        show (alookup sid (aset sid0 s' w.heap)).isSome = true
        rw [isSome_aset]
        exact hD key sid hk2
    · have hup : scheduleReconnectW sid0 w =
          { w with heap := aset sid0 s' w.heap, pending := w.pending ++ [.reconTimer sid0], schedLog := w.schedLog ++ [sid0] } := by
        unfold scheduleReconnectW
        simp only [hl, hcore]
      rw [hup]
      refine ⟨?_, ?_, ?_, ?_⟩
      · intro sid
        by_cases hcase : sid0 = sid
        · subst hcase
          refine phase_le_one_dead2 ?_ ?_
          · exact ((obsEq_aset_same_process sid0 hl hproc2).1).trans h0a
          · have hr2 : cnt (fun e => e = PendingEv.reconTimer sid0)
                (w.pending ++ [PendingEv.reconTimer sid0]) = 1 := by
              rw [cnt_append, cnt_singleton]
              have h0r2 : cnt (fun e => decide (e = PendingEv.reconTimer sid0)) w.pending = 0 := h0r
              simp
              omega
            have he2 : cnt (errPred sid0) (w.pending ++ [PendingEv.reconTimer sid0]) = 0 := by
              rw [cnt_append, cnt_singleton]
              have h0e2 : cnt (errPred sid0) w.pending = 0 := h0e
              simp [errPred]
              omega
            show cnt (fun e => e = PendingEv.reconTimer sid0)
                (w.pending ++ [PendingEv.reconTimer sid0]) +
              cnt (errPred sid0) (w.pending ++ [PendingEv.reconTimer sid0]) ≤ 1
            omega
        · obtain ⟨hob, _⟩ := scheduleReconnectW_untouched (w := w) hcase
          rw [hup] at hob
          refine phase_le_of_parts ?_ ?_ ?_ (hA sid)
          · exact le_of_eq hob.2.1
          · exact le_of_eq hob.2.2.1
          · exact hob.1
      · intro sid hs
        have hs2 : (alookup sid (aset sid0 s' w.heap)).isSome = true := hs
        rw [isSome_aset] at hs2
        exact hB sid hs2
      · intro e he
        have he2 : e ∈ w.pending ++ [PendingEv.reconTimer sid0] := he
        rcases List.mem_append.mp he2 with h | h
        · exact hC e h
        · simp at h
          rw [h]
          exact hs0
      · intro key sid hk
        have hk2 : alookup key w.tmap = some sid := hk
        show (alookup sid (aset sid0 s' w.heap)).isSome = true
        rw [isSome_aset]
        exact hD key sid hk2

end Tunnel
namespace Tunnel

theorem cnt_erase1_le {α : Type} [DecidableEq α] (p : α → Bool) (x : α) (l : List α) :
    cnt p (erase1 x l) ≤ cnt p l := by
  induction l with
  | nil => exact Nat.le_refl _
  | cons y t ih =>
      rw [erase1_cons]
      by_cases hyx : y = x
      · rw [if_pos hyx, cnt_cons]
        by_cases hp : p y
        · rw [if_pos hp]
          omega
        · rw [if_neg hp]
          omega
      · rw [if_neg hyx, cnt_cons, cnt_cons]
        by_cases hp : p y
        · rw [if_pos hp]
          omega
        · rw [if_neg hp]
          omega

theorem inv_erase1_pending {w : World} (hInv : Inv w) (x : PendingEv) :
    Inv { w with pending := erase1 x w.pending } := by
  obtain ⟨hA, hB, hC, hD⟩ := hInv
  refine ⟨?_, hB, ?_, hD⟩
  · intro sid
    refine phase_le_of_parts ?_ ?_ ?_ (hA sid)
    · exact cnt_erase1_le _ _ _
    · exact cnt_erase1_le _ _ _
    · rfl
  · intro e he
    exact hC e (mem_erase1_sub he)

theorem inv_aset_same_process {w : World} {sid0 : Nat} {s s' : TunnelState}
    (hl : alookup sid0 w.heap = some s) (hsp : s'.process = s.process) (hInv : Inv w) :
    Inv { w with heap := aset sid0 s' w.heap } := by
  obtain ⟨hA, hB, hC, hD⟩ := hInv
  refine ⟨?_, ?_, hC, ?_⟩
  · intro sid
    refine phase_le_of_parts ?_ ?_ ?_ (hA sid)
    · exact le_of_eq rfl
    · exact le_of_eq rfl
    · exact (obsEq_aset_same_process sid hl hsp).1
  · intro sid hs
    rw [isSome_aset] at hs
    exact hB sid hs
  · intro key sid hk
    rw [isSome_aset]
    exact hD key sid hk

end Tunnel

namespace Tunnel

theorem inv_sched_after_procnone {w : World} {sid0 : Nat} {s s' : TunnelState}
    (hl : alookup sid0 w.heap = some s) (hsp : s'.process = none)
    (hA : ∀ sid, phaseCount w sid ≤ 1)
    (hB : ∀ sid, (alookup sid w.heap).isSome = true → sid < w.nextSid)
    (hC : ∀ e ∈ w.pending, PendingEv.sid e < w.nextSid)
    (hD : ∀ key sid, alookup key w.tmap = some sid → (alookup sid w.heap).isSome = true)
    (h0r : reconCount sid0 w = 0) (h0e : errCount sid0 w = 0) :
    Inv (scheduleReconnectW sid0 { w with heap := aset sid0 s' w.heap }) := by
  have hmida : aliveAt { w with heap := aset sid0 s' w.heap } sid0 = false := by
    unfold aliveAt
    rw [alookup_aset_self, hl]
    show (match s'.process with | some hp => hp.alive | none => false) = false
    rw [hsp]
  refine inv_scheduleReconnectW ?_ ?_ hC ?_ h0r h0e hmida
  · intro sid
    by_cases hcase : sid0 = sid
    · subst hcase
      refine phase_le_one_dead2 hmida ?_
      have h0r2 : cnt (fun e => e = PendingEv.reconTimer sid0) w.pending = 0 := h0r
      have h0e2 : cnt (errPred sid0) w.pending = 0 := h0e
      show cnt (fun e => e = PendingEv.reconTimer sid0) w.pending +
        cnt (errPred sid0) w.pending ≤ 1
      omega
    · refine phase_le_of_parts ?_ ?_ ?_ (hA sid)
      · exact le_of_eq rfl
      · exact le_of_eq rfl
      · unfold aliveAt
        rw [alookup_aset_ne _ _ (fun hh => hcase hh.symm)]
  · intro sid hs
    have hs2 : (alookup sid (aset sid0 s' w.heap)).isSome = true := hs
    rw [isSome_aset] at hs2
    exact hB sid hs2
  · intro key sid hk
    have hk2 : alookup key w.tmap = some sid := hk
    show (alookup sid (aset sid0 s' w.heap)).isSome = true
    rw [isSome_aset]
    exact hD key sid hk2

theorem inv_exitHandler {w : World} {sid0 : Nat} (hInv : Inv w)
    (ha : aliveAt w sid0 = true) : Inv (exitHandler sid0 w) := by
  obtain ⟨hA, hB, hC, hD⟩ := hInv
  rcases hl : alookup sid0 w.heap with _ | s
  · rw [aliveAt_of_none hl] at ha
    cases ha
  · obtain ⟨h0r, h0e⟩ := phase_of_alive (hA sid0) ha
    unfold exitHandler
    simp only [hl]
    exact inv_sched_after_procnone hl rfl hA hB hC hD h0r h0e

end Tunnel

namespace Tunnel

theorem inv_alloc_connect {w1 : World} (c : TunnelConfig) (key : String) (res : SpawnRes)
    (hA : ∀ sid, phaseCount w1 sid ≤ 1)
    (hB : ∀ sid, (alookup sid w1.heap).isSome = true → sid < w1.nextSid)
    (hC : ∀ e ∈ w1.pending, PendingEv.sid e < w1.nextSid)
    (hD : ∀ key' sid, alookup key' w1.tmap = some sid → (alookup sid w1.heap).isSome = true) :
    Inv (connect w1.nextSid res
      { w1 with heap := (w1.nextSid, newState c) :: w1.heap
              , tmap := w1.tmap ++ [(key, w1.nextSid)]
              , nextSid := w1.nextSid + 1 }) := by
  have h0r1 : reconCount w1.nextSid w1 = 0 := reconCount_zero_of_bound hC (Nat.le_refl _)
  have h0e1 : errCount w1.nextSid w1 = 0 := errCount_zero_of_bound hC (Nat.le_refl _)
  refine inv_connect res ?_ ?_ ?_ ?_ h0r1 h0e1
  · intro sid
    by_cases hcase : w1.nextSid = sid
    · subst hcase
      refine phase_le_one_dead2 ?_ ?_
      · unfold aliveAt
        rw [alookup_cons, if_pos rfl]
        rfl
      · have h0r2 : cnt (fun e => e = PendingEv.reconTimer w1.nextSid) w1.pending = 0 := h0r1
        have h0e2 : cnt (errPred w1.nextSid) w1.pending = 0 := h0e1
        show cnt (fun e => e = PendingEv.reconTimer w1.nextSid) w1.pending +
          cnt (errPred w1.nextSid) w1.pending ≤ 1
        omega
    · refine phase_le_of_parts ?_ ?_ ?_ (hA sid)
      · exact le_of_eq rfl
      · exact le_of_eq rfl
      · unfold aliveAt
        rw [alookup_cons, if_neg hcase]
  · intro sid hs
    have hs2 : (alookup sid ((w1.nextSid, newState c) :: w1.heap)).isSome = true := hs
    rw [alookup_cons] at hs2
    by_cases hcase : w1.nextSid = sid
    · show sid < w1.nextSid + 1
      omega
    · rw [if_neg hcase] at hs2
      have := hB sid hs2
      show sid < w1.nextSid + 1
      omega
  · intro e he
    have he2 : e ∈ w1.pending := he
    have := hC e he2
    show PendingEv.sid e < w1.nextSid + 1
    omega
  · intro key' sid hk
    have hk2 : alookup key' (w1.tmap ++ [(key, w1.nextSid)]) = some sid := hk
    rw [alookup_append] at hk2
    show (alookup sid ((w1.nextSid, newState c) :: w1.heap)).isSome = true
    rw [alookup_cons]
    rcases hm : alookup key' w1.tmap with _ | sid1
    · rw [hm] at hk2
      have hk3 : alookup key' [(key, w1.nextSid)] = some sid := hk2
      rw [alookup_cons] at hk3
      by_cases hkk : key = key'
      · rw [if_pos hkk] at hk3
        have hsid : w1.nextSid = sid := by
          injection hk3
        rw [if_pos hsid]
        rfl
      · rw [if_neg hkk] at hk3
        cases hk3
    · rw [hm] at hk2
      have hk3 : sid1 = sid := by
        have hk4 : some sid1 = some sid := hk2
        injection hk4
      by_cases hcase : w1.nextSid = sid
      · rw [if_pos hcase]
        rfl
      · rw [if_neg hcase]
        subst hk3
        exact hD key' sid1 hm

theorem inv_startTunnelW {w : World} (hInv : Inv w) (c : TunnelConfig) (res : SpawnRes) :
    Inv (startTunnelW c res w) := by
  obtain ⟨hA1, hB1, hC1, hD1⟩ := inv_stopTunnelW hInv (getTunnelKey c)
  unfold startTunnelW
  exact inv_alloc_connect c (getTunnelKey c) res hA1 hB1 hC1 hD1

end Tunnel

namespace Tunnel

theorem inv_fireRecon {w : World} (hInv : Inv w) (sid0 : Nat) (res : SpawnRes) :
    Inv (step w (.fireRecon sid0 res)) := by
  rw [step_fireRecon]
  by_cases hmem : PendingEv.reconTimer sid0 ∈ w.pending
  · rw [if_pos hmem]
    show Inv (match alookup sid0 w.heap with
      | none => { w with pending := erase1 (.reconTimer sid0) w.pending }
      | some s => connect sid0 res
          { w with pending := erase1 (.reconTimer sid0) w.pending, heap := aset sid0 ({ s with status := .connecting }) w.heap })
    have hInv1 : Inv { w with pending := erase1 (.reconTimer sid0) w.pending } :=
      inv_erase1_pending hInv (.reconTimer sid0)
    rcases hl : alookup sid0 w.heap with _ | s
    · simp only [hl]
      exact hInv1
    · simp only [hl]
      have hpos : 0 < reconCount sid0 w := reconCount_pos_of_mem hmem
      obtain ⟨hr1, he0, ha0⟩ := phase_of_recon (hInv.1 sid0) hpos
      have hl1 : alookup sid0
          ({ w with pending := erase1 (.reconTimer sid0) w.pending } : World).heap = some s := hl
      have hsp2 : ({ s with status := .connecting } : TunnelState).process = s.process := rfl
      have hInv2 := inv_aset_same_process
        (w := { w with pending := erase1 (.reconTimer sid0) w.pending })
        hl1 hsp2 hInv1
      obtain ⟨hA2, hB2, hC2, hD2⟩ := hInv2
      have hr0 : reconCount sid0 { w with pending := erase1 (.reconTimer sid0) w.pending, heap := aset sid0 ({ s with status := .connecting }) w.heap } = 0 := by
        show cnt (fun e => e = PendingEv.reconTimer sid0)
          (erase1 (PendingEv.reconTimer sid0) w.pending) = 0
        have h1 := cnt_erase1_mem (p := fun e => decide (e = PendingEv.reconTimer sid0))
          hmem (by simp)
        have hr1b : cnt (fun e => decide (e = PendingEv.reconTimer sid0)) w.pending = 1 := hr1
        omega
      have he0b : errCount sid0 { w with pending := erase1 (.reconTimer sid0) w.pending, heap := aset sid0 ({ s with status := .connecting }) w.heap } = 0 := by
        show cnt (errPred sid0) (erase1 (PendingEv.reconTimer sid0) w.pending) = 0
        have h2 := cnt_erase1_not (p := errPred sid0)
          (show errPred sid0 (PendingEv.reconTimer sid0) = false by simp [errPred]) w.pending
        have he0c : cnt (errPred sid0) w.pending = 0 := he0
        omega
      exact inv_connect res hA2 hB2 hC2 hD2 hr0 he0b
  · rw [if_neg hmem]
    exact hInv

end Tunnel

namespace Tunnel

theorem inv_fireConfirm {w : World} (hInv : Inv w) (sid0 : Nat) :
    Inv (step w (.fireConfirm sid0)) := by
  rw [step_fireConfirm]
  by_cases hmem : PendingEv.confirmTimer sid0 ∈ w.pending
  · rw [if_pos hmem]
    show Inv (match alookup sid0 w.heap with
      | none => { w with pending := erase1 (.confirmTimer sid0) w.pending }
      | some s =>
          match s.process with
          | some h =>
              if h.killed then { w with pending := erase1 (.confirmTimer sid0) w.pending }
              else { w with pending := erase1 (.confirmTimer sid0) w.pending, heap := aset sid0 ({ s with status := .connected, reconnectAttempts := 0 }) w.heap }
          | none => { w with pending := erase1 (.confirmTimer sid0) w.pending })
    have hInv1 : Inv { w with pending := erase1 (.confirmTimer sid0) w.pending } :=
      inv_erase1_pending hInv (.confirmTimer sid0)
    rcases hl : alookup sid0 w.heap with _ | s
    · simp only [hl]
      exact hInv1
    · simp only [hl]
      rcases hp : s.process with _ | ph
      · simp only [hp]
        exact hInv1
      · simp only [hp]
        by_cases hk : ph.killed
        · rw [if_pos hk]
          exact hInv1
        · rw [if_neg hk]
          have hl1 : alookup sid0
              ({ w with pending := erase1 (.confirmTimer sid0) w.pending } : World).heap =
              some s := hl
          have hsp2 : ({ s with process := some ph, status := .connected, reconnectAttempts := 0 } : TunnelState).process = s.process := hp.symm
          have hInv2 := inv_aset_same_process
            (w := { w with pending := erase1 (.confirmTimer sid0) w.pending })
            hl1 hsp2 hInv1
          exact hInv2
  · rw [if_neg hmem]
    exact hInv

theorem inv_fireErr {w : World} (hInv : Inv w) (sid0 : Nat) (msg : String) :
    Inv (step w (.fireErr sid0 msg)) := by
  rw [step_fireErr]
  by_cases hmem : PendingEv.errEv sid0 msg ∈ w.pending
  · rw [if_pos hmem]
    show Inv (match alookup sid0 w.heap with
      | none => { w with pending := erase1 (.errEv sid0 msg) w.pending }
      | some s => scheduleReconnectW sid0
          { w with pending := erase1 (.errEv sid0 msg) w.pending, heap := aset sid0 ({ s with status := .error, lastError := some msg }) w.heap })
    have hInv1 : Inv { w with pending := erase1 (.errEv sid0 msg) w.pending } :=
      inv_erase1_pending hInv (.errEv sid0 msg)
    rcases hl : alookup sid0 w.heap with _ | s
    · simp only [hl]
      exact hInv1
    · simp only [hl]
      have hpos : 0 < errCount sid0 w := errCount_pos_of_mem hmem
      obtain ⟨he1, hr0w, ha0⟩ := phase_of_err (hInv.1 sid0) hpos
      have hl1 : alookup sid0
          ({ w with pending := erase1 (.errEv sid0 msg) w.pending } : World).heap = some s := hl
      have hsp2 : ({ s with status := .error, lastError := some msg } : TunnelState).process
          = s.process := rfl
      have hInv2 := inv_aset_same_process
        (w := { w with pending := erase1 (.errEv sid0 msg) w.pending })
        hl1 hsp2 hInv1
      obtain ⟨hA2, hB2, hC2, hD2⟩ := hInv2
      have hr0 : reconCount sid0 { w with pending := erase1 (.errEv sid0 msg) w.pending, heap := aset sid0 ({ s with status := .error, lastError := some msg }) w.heap } = 0 := by
        show cnt (fun e => e = PendingEv.reconTimer sid0)
          (erase1 (PendingEv.errEv sid0 msg) w.pending) = 0
        have h2 := cnt_erase1_not (p := fun e => decide (e = PendingEv.reconTimer sid0))
          (show decide (PendingEv.errEv sid0 msg = PendingEv.reconTimer sid0) = false by simp)
          w.pending
        have hr0b : cnt (fun e => decide (e = PendingEv.reconTimer sid0)) w.pending = 0 := hr0w
        omega
      have he0 : errCount sid0 { w with pending := erase1 (.errEv sid0 msg) w.pending, heap := aset sid0 ({ s with status := .error, lastError := some msg }) w.heap } = 0 := by
        show cnt (errPred sid0) (erase1 (PendingEv.errEv sid0 msg) w.pending) = 0
        have h1 := cnt_erase1_mem (p := errPred sid0) hmem (by simp [errPred])
        have he1b : cnt (errPred sid0) w.pending = 1 := he1
        omega
      have ha0b : aliveAt { w with pending := erase1 (.errEv sid0 msg) w.pending, heap := aset sid0 ({ s with status := .error, lastError := some msg }) w.heap } sid0 = false := by
        have hob := obsEq_aset_same_process
          (w := { w with pending := erase1 (.errEv sid0 msg) w.pending }) sid0 hl1 hsp2
        exact hob.1.trans ha0
      exact inv_scheduleReconnectW hA2 hB2 hC2 hD2 hr0 he0 ha0b
  · rw [if_neg hmem]
    exact hInv

end Tunnel

namespace Tunnel

theorem inv_step {w : World} (hInv : Inv w) (e : Ev) : Inv (step w e) := by
  cases e with
  | apiStart c res => exact inv_startTunnelW hInv c res
  | apiStop key => exact inv_stopTunnelW hInv key
  | procDies sid0 =>
      rw [step_procDies]
      rcases hl : alookup sid0 w.heap with _ | s
      · simp only [hl]
        exact hInv
      · simp only [hl]
        rcases hp : s.process with _ | h
        · simp only [hp]
          exact hInv
        · simp only [hp]
          by_cases hal : h.alive
          · rw [if_pos hal]
            refine inv_exitHandler hInv ?_
            rw [aliveAt_of_some hl]
            simp only [hp]
            exact hal
          · rw [if_neg hal]
            exact hInv
  | fireRecon sid0 res => exact inv_fireRecon hInv sid0 res
  | fireConfirm sid0 => exact inv_fireConfirm hInv sid0
  | fireErr sid0 msg => exact inv_fireErr hInv sid0 msg

theorem inv_init : Inv init := by
  refine ⟨?_, ?_, ?_, ?_⟩
  · intro sid
    have h0 : phaseCount init sid = 0 := rfl
    omega
  · intro sid hs
    simp [init, alookup] at hs
  · intro e he
    simp [init] at he
  · intro key sid hk
    exact Option.noConfusion hk

theorem reachable_inv {w : World} (hw : Reachable w) : Inv w := by
  induction hw with
  | refl => exact inv_init
  | tail e hw ih => exact inv_step ih e

end Tunnel

namespace Tunnel

/-- A config whose tunnel, started and failing to spawn, acquires a pending
reconnect timer; `stopTunnel` is then called on its key. -/
def cfgStopped : TunnelConfig := { host := "c@h" }

/-- Start the tunnel (spawn fails) and deliver the `'error'` event: its
handler schedules the first reconnect timer. -/
def stopTrace : List Ev := [.apiStart cfgStopped (.errSpawn "x"), .fireErr 0 "x"]

/-- C3: in every reachable supervisor world, if `key` is tracked and its state
has a pending reconnect timer, then `stopTunnel key` cancels the timer (the
state's pending-reconnect count drops to zero) and removes the key from the
map, and afterwards no reconnect for that state ever occurs: under every
continuation of the event loop the state keeps zero pending reconnect timers
and `connect` is never invoked for it again, even when the originally
scheduled delay elapses (a `fireRecon` event in the continuation). -/
theorem stopTunnel_cancels_pending_reconnect {w : World} {key : String} {sid : Nat}
    (hw : Reachable w) (hk : alookup key w.tmap = some sid)
    (ht : 0 < reconCount sid w) :
    reconCount sid (stopTunnelW key w) = 0 ∧
    alookup key (stopTunnelW key w).tmap = none ∧
    ∀ evs, reconCount sid (run (stopTunnelW key w) evs) = 0 ∧
      connCount sid (run (stopTunnelW key w) evs) = connCount sid w := by
  obtain ⟨hA, hB, hC, hD⟩ := reachable_inv hw
  obtain ⟨hr1, he0, ha0⟩ := phase_of_recon (hA sid) ht
  have hDs := hD key sid hk
  rcases hl : alookup sid w.heap with _ | s
  · rw [hl] at hDs
    exact Bool.noConfusion hDs
  · have hup : stopTunnelW key w = { w with heap := aset sid (killProc s) w.heap, tmap := aremove key w.tmap, pending := w.pending.filter fun e => e ≠ .reconTimer sid } := by
      unfold stopTunnelW
      simp only [hk, hl]
    have hq : Quiet (stopTunnelW key w) sid := by
      rw [hup]
      refine ⟨?_, ?_, ?_, ?_⟩
      · show (match alookup sid (aset sid (killProc s) w.heap) with
            | some s1 => match s1.process with | some h => h.alive | none => false
            | none => false) = false
        rw [alookup_aset_self, hl]
        show (match (killProc s).process with | some h => h.alive | none => false) = false
        rw [killProc_alive]
        rw [aliveAt_of_some hl] at ha0
        exact ha0
      · show cnt (fun e => e = PendingEv.reconTimer sid)
          (w.pending.filter fun e => e ≠ PendingEv.reconTimer sid) = 0
        refine cnt_filter_zero (fun a ha => ?_) w.pending
        have ha2 : a = PendingEv.reconTimer sid := by simpa using ha
        simp [ha2]
      · show cnt (errPred sid)
          (w.pending.filter fun e => e ≠ PendingEv.reconTimer sid) = 0
        have hle := cnt_filter_le (errPred sid)
          (fun e => e ≠ PendingEv.reconTimer sid) w.pending
        have he0b : cnt (errPred sid) w.pending = 0 := he0
        omega
      · show sid < w.nextSid
        exact hB sid (by rw [hl]; rfl)
    have hconnS : connCount sid (stopTunnelW key w) = connCount sid w := by
      rw [hup]
      rfl
    refine ⟨hq.2.1, ?_, ?_⟩
    · rw [hup]
      show alookup key (aremove key w.tmap) = none
      exact alookup_aremove_self key w.tmap
    · intro evs
      obtain ⟨hq2, hc2⟩ := quiet_run hq evs
      exact ⟨hq2.2.1, hc2.trans hconnS⟩

/-- Concrete instance of the C3 theorem: after a failed spawn schedules a
reconnect timer, `stopTunnel` cancels it, and firing the timer's event after
the stop neither re-registers a timer nor invokes `connect` again. -/
theorem stopTunnel_cancels_pending_reconnect_witness :
    alookup "c@h:9847" (run init stopTrace).tmap = some 0 ∧
    0 < reconCount 0 (run init stopTrace) ∧
    reconCount 0 (run (stopTunnelW "c@h:9847" (run init stopTrace)) [Ev.fireRecon 0 .ok]) = 0 ∧
    connCount 0 (run (stopTunnelW "c@h:9847" (run init stopTrace)) [Ev.fireRecon 0 .ok]) =
      connCount 0 (run init stopTrace) := by
  have hreach : Reachable (run init stopTrace) := by
    show Reachable (step (step init (.apiStart cfgStopped (.errSpawn "x"))) (.fireErr 0 "x"))
    exact Reachable.tail _ (Reachable.tail _ Reachable.refl)
  have hk : alookup "c@h:9847" (run init stopTrace).tmap = some 0 := by decide
  have ht : 0 < reconCount 0 (run init stopTrace) := by decide
  obtain ⟨h1, h2, h3⟩ := stopTunnel_cancels_pending_reconnect hreach hk ht
  obtain ⟨h4, h5⟩ := h3 [Ev.fireRecon 0 .ok]
  exact ⟨hk, ht, h4, h5⟩

end Tunnel
